import Mathlib

/-!
Verification development for the catalogue-processor repository.

The repository ingests XML metadata files describing audio tracks
(src/xml_processor.py), extracts a small set of fields by heuristic
tag/attribute discovery, and merges them into a manifest keyed by
filename (src/manifest_handler.py).  This file shallowly embeds the
relevant parts of both modules and proves or refutes the frozen claims
about them.

Strings are manipulated at the character-list level (`String.data`) so
that every definition evaluates by kernel reduction; Python semantics
(slicing, substring containment, `str.lower`, truthiness) are embedded
explicitly where the source relies on them.
-/

namespace Catalogue

/-- Does `s` start with the characters of `p`?  Character-level model of
Python's `str.startswith` / slicing comparisons. -/
def isPre : List Char → List Char → Bool
  | [], _ => true
  | _ :: _, [] => false
  | a :: as, b :: bs => a == b && isPre as bs

/-- Substring containment: Python's `needle in hay` for strings.  The empty
needle is contained in everything, as in Python. -/
def hasSub (n : List Char) : List Char → Bool
  | [] => isPre n []
  | s@(_ :: t) => isPre n s || hasSub n t

/-- `needle in hay` on `String`s. -/
def hasSubStr (needle hay : String) : Bool := hasSub needle.data hay.data

/-- Python `str.lower()` (ASCII case folding suffices for every string the
program compares). -/
def lowerStr (s : String) : String := ⟨s.data.map Char.toLower⟩

/-- Python `s.startswith(p)` on `String`s. -/
def strStarts (p s : String) : Bool := isPre p.data s.data

/-- Python slice `s[a:-1]`: drop `a` characters from the front and one from
the back. -/
def sliceFromDropLast (a : Nat) (s : String) : String := ⟨(s.data.drop a).dropLast⟩

/-- The character `{` (written via its code point to keep it out of string
literals). -/
def lbrace : Char := Char.ofNat 123

/-- The character `}`. -/
def rbrace : Char := Char.ofNat 125

/-- Split a character list at every occurrence of `sep` (Python
`str.split(sep)` for a single-character separator). -/
def splitOnChar (sep : Char) : List Char → List (List Char)
  | [] => [[]]
  | c :: cs =>
    match splitOnChar sep cs with
    | [] => if c == sep then [[], []] else [[c]]
    | h :: t => if c == sep then [] :: h :: t else (c :: h) :: t

/- ----------------------------------------------------------------------
XML documents and `xml.etree.ElementTree` queries (src/xml_processor.py).
---------------------------------------------------------------------- -/

/-- A parsed XML element: tag name (namespaced tags carry their
`\x7bnamespace\x7d` prefix inside the string, as ElementTree stores them),
attributes in document order, text content (`Option` because ElementTree
reports absent text as `None`), and child elements in document order. -/
inductive XElem : Type where
  | node (tag : String) (attrs : List (String × String)) (text : Option String)
      (children : List XElem)

def XElem.tag : XElem → String
  | .node t _ _ _ => t

def XElem.attrs : XElem → List (String × String)
  | .node _ a _ _ => a

def XElem.text : XElem → Option String
  | .node _ _ s _ => s

def XElem.children : XElem → List XElem
  | .node _ _ _ c => c

mutual
/-- `elem.iter()`: the element followed by all of its descendants in
document (preorder) order. -/
def iterList : XElem → List XElem
  | .node t a s c => .node t a s c :: iterLists c
/-- `iterList` mapped over a sibling list, concatenated. -/
def iterLists : List XElem → List XElem
  | [] => []
  | e :: es => iterList e ++ iterLists es
end

/-- All proper descendants of `root` in document order (the elements a
`.//`-rooted path expression ranges over; `root` itself is excluded). -/
def descendants (root : XElem) : List XElem := iterLists root.children

/-- ElementTree attribute lookup `elem.get(name)` (absent attribute gives
`None`). -/
def XElem.getAttr (e : XElem) (name : String) : Option String :=
  e.attrs.lookup name

/-- Does `tag` match path segment `seg`?  A plain segment matches the tag
exactly; a `\x7b*\x7d`-prefixed segment matches the bare name in any
namespace or none (ElementTree's `\x7b*\x7d` wildcard). -/
def segMatches (seg tag : String) : Bool :=
  if isPre [lbrace, '*', rbrace] seg.data then
    let name := (seg.data.drop 3)
    tag.data == name ||
      (match tag.data with
       | c :: cs =>
         c == lbrace &&
           (match (cs.dropWhile (fun d => !(d == rbrace))) with
            | d :: rest => d == rbrace && rest == name
            | [] => false)
       | [] => false)
  else tag == seg

/-- `root.findall(pattern)` for the pattern shapes the extractors use:
`.//Tag`, `.//A/B` (with optional `\x7b*\x7d` wildcards on each segment)
and `.//*[@attr]`.  The first path segment ranges over all descendants of
`root`; each later segment steps to matching children; an attribute
pattern selects every descendant carrying the attribute.  Results are in
document order, as ElementTree produces them. -/
def findall (root : XElem) (pattern : String) : List XElem :=
  let rest : String := ⟨pattern.data.drop 3⟩
  if strStarts "*[@" rest then
    let attrName : String := ⟨(rest.data.drop 3).dropLast⟩
    (descendants root).filter (fun e => e.attrs.any (fun kv => kv.1 == attrName))
  else
    match (splitOnChar '/' rest.data).map (fun cs => (⟨cs⟩ : String)) with
    | [] => []
    | s0 :: srest =>
      let start := (descendants root).filter (fun e => segMatches s0 e.tag)
      srest.foldl
        (fun acc seg => acc.flatMap (fun e => e.children.filter (fun ch => segMatches seg ch.tag)))
        start

/- ----------------------------------------------------------------------
Field extractors (`XMLProcessor._extract_*`, src/xml_processor.py).
Each tries an ordered pattern list; the first pattern with at least one
match wins with its first match.  For an attribute pattern the code
computes the attribute name as `pattern[5:-1]` (for filename / title /
artist) or uses the literal `'isrc'`, then returns `elements[0].get(...)`;
for a tag pattern it returns `elements[0].text`.  If no pattern matches,
a keyword scan over `root.iter()` runs.
---------------------------------------------------------------------- -/

/-- The ordered pattern list of `_extract_audio_filename`. -/
def filenamePatterns : List String :=
  [".//FileName", ".//AudioFileName", ".//SoundRecording/FileName",
   ".//*[@filename]", ".//*[@audioFileName]",
   ".//\x7b*\x7dFileName", ".//\x7b*\x7dAudioFileName",
   ".//\x7b*\x7dSoundRecording/\x7b*\x7dFileName"]

/-- The ordered pattern list of `_extract_isrc`. -/
def isrcPatterns : List String := [".//ISRC", ".//*[@isrc]", ".//\x7b*\x7dISRC"]

/-- The ordered pattern list of `_extract_track_title`. -/
def titlePatterns : List String :=
  [".//Title", ".//TrackTitle", ".//SoundRecording/Title",
   ".//*[@title]", ".//*[@trackTitle]",
   ".//\x7b*\x7dTitle", ".//\x7b*\x7dTrackTitle"]

/-- The ordered pattern list of `_extract_artist`. -/
def artistPatterns : List String :=
  [".//Artist", ".//ArtistName", ".//Performer/Name",
   ".//*[@artist]", ".//*[@artistName]",
   ".//\x7b*\x7dArtist", ".//\x7b*\x7dArtistName",
   ".//\x7b*\x7dPerformer/\x7b*\x7dName"]

/-- The structural phase shared by all four extractors: try the patterns in
order; the first pattern whose `findall` is non-empty wins, together with
its first match. -/
def structural_phase (pats : List String) (root : XElem) : Option (String × XElem) :=
  match pats with
  | [] => none
  | p :: rest =>
    match findall root p with
    | [] => structural_phase rest root
    | e :: _ => some (p, e)

/-- The shared winning-pattern dispatch of `_extract_audio_filename`,
`_extract_track_title` and `_extract_artist`: an attribute pattern
(`pattern.startswith('.//*[@')`) yields `elements[0].get(pattern[5:-1])`
(note the slice keeps the leading `@`), a tag pattern yields
`elements[0].text`. -/
def structuralValue (p : String) (e : XElem) : Option String :=
  if strStarts ".//*[@" p then e.getAttr (sliceFromDropLast 5 p)
  else e.text

/-- The keyword fallback of `_extract_audio_filename`: per element, a tag
containing one of `filename`, `audiofilename`, `soundrecording`
(case-insensitively) with truthy text containing `.wav` is returned; else
any attribute whose name contains one of `filename`, `file`, `audio` and
whose value is truthy and contains `.wav`. -/
def filenameFallbackElem (e : XElem) : Option String :=
  if (["filename", "audiofilename", "soundrecording"].any
        (fun n => hasSubStr n (lowerStr e.tag)))
      && (match e.text with
          | some t => !(t == "") && hasSubStr ".wav" (lowerStr t)
          | none => false) then
    e.text
  else
    e.attrs.findSome? (fun kv =>
      if (["filename", "file", "audio"].any (fun n => hasSubStr n (lowerStr kv.1)))
          && !(kv.2 == "") && hasSubStr ".wav" (lowerStr kv.2)
      then some kv.2 else none)

/-- `_extract_audio_filename`. -/
def extract_audio_filename (root : XElem) : Option String :=
  match structural_phase filenamePatterns root with
  | some (p, e) => structuralValue p e
  | none => (iterList root).findSome? filenameFallbackElem

/-- The keyword fallback loop of `_extract_isrc`: the first element whose
tag contains `isrc` returns that element's text unconditionally (possibly
`None`, ending the scan); otherwise the first attribute whose name
contains `isrc` returns its value. -/
def isrcFallback : List XElem → Option String
  | [] => none
  | e :: rest =>
    if hasSubStr "isrc" (lowerStr e.tag) then e.text
    else
      match e.attrs.findSome? (fun kv =>
          if hasSubStr "isrc" (lowerStr kv.1) then some kv.2 else none) with
      | some v => some v
      | none => isrcFallback rest

/-- `_extract_isrc`; its attribute branch uses the literal name `'isrc'`
rather than a slice of the pattern. -/
def extract_isrc (root : XElem) : Option String :=
  match structural_phase isrcPatterns root with
  | some (p, e) => if strStarts ".//*[@" p then e.getAttr "isrc" else e.text
  | none => isrcFallback (iterList root)

/-- The keyword fallback loop of `_extract_track_title` (keywords `title`,
`tracktitle`); a tag hit returns the element's text unconditionally. -/
def titleFallback : List XElem → Option String
  | [] => none
  | e :: rest =>
    if ["title", "tracktitle"].any (fun n => hasSubStr n (lowerStr e.tag)) then e.text
    else
      match e.attrs.findSome? (fun kv =>
          if ["title", "tracktitle"].any (fun n => hasSubStr n (lowerStr kv.1))
          then some kv.2 else none) with
      | some v => some v
      | none => titleFallback rest

/-- `_extract_track_title`. -/
def extract_track_title (root : XElem) : Option String :=
  match structural_phase titlePatterns root with
  | some (p, e) => structuralValue p e
  | none => titleFallback (iterList root)

/-- The keyword fallback loop of `_extract_artist` (keywords `artist`,
`performer`, `creator`); a tag hit returns the element's text
unconditionally. -/
def artistFallback : List XElem → Option String
  | [] => none
  | e :: rest =>
    if ["artist", "performer", "creator"].any (fun n => hasSubStr n (lowerStr e.tag)) then
      e.text
    else
      match e.attrs.findSome? (fun kv =>
          if ["artist", "performer", "creator"].any (fun n => hasSubStr n (lowerStr kv.1))
          then some kv.2 else none) with
      | some v => some v
      | none => artistFallback rest

/-- `_extract_artist`. -/
def extract_artist (root : XElem) : Option String :=
  match structural_phase artistPatterns root with
  | some (p, e) => structuralValue p e
  | none => artistFallback (iterList root)

/-- The record `_process_single_xml` builds on success. -/
structure MetaRec where
  xml_path : String
  audio_filename : String
  isrc : Option String
  track_title : Option String
  artist : Option String
deriving DecidableEq, Repr

/-- `_process_single_xml`.  The XML parse is external: a parse failure is
the `none` input (the function's `try` block absorbs the exception and
returns `None`).  After extraction, a Python-falsy `audio_filename`
(`None` or the empty string) also yields `None`; otherwise the metadata
record is built from the four extractors, absent optional fields staying
`none`. -/
def process_single_xml (xml_path : String) (parsed : Option XElem) : Option MetaRec :=
  match parsed with
  | none => none
  | some root =>
    match extract_audio_filename root with
    | none => none
    | some f =>
      if f == "" then none
      else some ⟨xml_path, f, extract_isrc root, extract_track_title root, extract_artist root⟩

/- ----------------------------------------------------------------------
Manifest data model (src/manifest_handler.py).
---------------------------------------------------------------------- -/

/-- A cell value of the manifest: a string, a number, or Python
`None` / pandas `NaN` (`null`). -/
inductive Value : Type where
  | str (s : String)
  | num (n : Int)
  | null
deriving DecidableEq, Repr

/-- One key-value record (a JSON object / a DataFrame row viewed as a
dict), keys in insertion order as Python dicts keep them. -/
abbrev Rec := List (String × Value)

/-- A pandas DataFrame with its default `RangeIndex`: named columns and
positional rows (row `i` is labelled `i`). -/
structure DFrame where
  cols : List String
  rows : List (List Value)
deriving DecidableEq, Repr

/-- The three supported manifest shapes: a DataFrame (CSV / Excel), a JSON
list of records, or a JSON mapping from keys to records. -/
inductive Manifest : Type where
  | table (df : DFrame)
  | list (rs : List Rec)
  | dict (es : List (String × Rec))
deriving DecidableEq, Repr

/-- A record locator stored in `file_index`: a DataFrame row label, a list
position, or a mapping key. -/
inductive Loc : Type where
  | row (i : Nat)
  | pos (i : Nat)
  | key (k : String)
deriving DecidableEq, Repr

/-- `self.file_index`: a Python dict from bare filename to locator,
modelled as an association list with dict semantics (assignment overwrites
in place, new keys append). -/
abbrev FileIndex := List (String × Loc)

/-- Python dict assignment `d[k] = v`: overwrite an existing key in place,
else append. -/
def idxInsert (k : String) (l : Loc) (m : FileIndex) : FileIndex :=
  if m.any (fun kv => kv.1 == k) then m.map (fun kv => if kv.1 == k then (k, l) else kv)
  else m ++ [(k, l)]

/-- `pathlib.Path(s).name` for POSIX-style paths: strip trailing
separators, then keep everything after the last `/`. -/
def pathName (s : String) : String :=
  ⟨(((s.data.reverse.dropWhile (fun c => c == '/')).takeWhile (fun c => !(c == '/'))).reverse)⟩

/-- `dict.get(k, d)`. -/
def recGet (r : Rec) (k : String) (d : Value) : Value :=
  match r.lookup k with
  | some v => v
  | none => d

/-- Python dict assignment on a record: replace the value of an existing
key in place, else append the pair. -/
def setField (r : Rec) (k : String) (v : Value) : Rec :=
  if r.any (fun kv => kv.1 == k) then r.map (fun kv => if kv.1 == k then (k, v) else kv)
  else r ++ [(k, v)]

/-- The column-name priority list shared by `_find_path_column` and
`_find_path_key_in_dict`. -/
def priorityNames : List String := ["path", "filepath", "file_path", "location", "uri", "url"]

/-- The values of column `c` (positionally; missing cells read as `null`). -/
def colValues (df : DFrame) (c : String) : List Value :=
  df.rows.map (fun r => r.getD (df.cols.findIdx (fun n => n == c)) Value.null)

/-- pandas `dtype == 'object'` for our cell values: the column holds at
least one string. -/
def isObjectCol (vs : List Value) : Bool :=
  vs.any (fun v => match v with | .str _ => true | _ => false)

/-- `series.dropna().iloc[0]` with the code's `""` default for an all-null
column. -/
def firstNonNull (vs : List Value) : Value :=
  match vs.find? (fun v => !(v == Value.null)) with
  | some v => v
  | none => Value.str ""

/-- Is the sampled value a string containing `/` or a backslash? -/
def valueHasSlash (v : Value) : Bool :=
  match v with
  | .str s => hasSubStr "/" s || hasSubStr "\\" s
  | _ => false

/-- `_find_path_column`: first priority name present among the columns;
otherwise the first column (in column order) whose dtype is object and
whose first non-null sample contains a slash. -/
def find_path_column (df : DFrame) : Option String :=
  match priorityNames.find? (fun n => df.cols.contains n) with
  | some n => some n
  | none =>
    df.cols.find? (fun c =>
      isObjectCol (colValues df c) && valueHasSlash (firstNonNull (colValues df c)))

/-- `_find_path_key_in_dict`: `None` for an empty sample; else the first
priority name present among the keys; else the first key whose value is a
slash-bearing string. -/
def find_path_key_in_dict (r : Rec) : Option String :=
  if r.isEmpty then none
  else
    match priorityNames.find? (fun n => r.any (fun kv => kv.1 == n)) with
    | some n => some n
    | none => (r.find? (fun kv => valueHasSlash kv.2)).map (fun kv => kv.1)

/-- The DataFrame branch of `_build_file_index`: for each row (in order)
take the path cell, reduce it to its bare filename and map it to the row
label; later duplicates overwrite earlier ones.  A missing path column
gives an empty index.  Non-string path cells are skipped (the Python code
would raise on them; no claim exercises that case). -/
def buildTableIndex (df : DFrame) : FileIndex :=
  match find_path_column df with
  | none => []
  | some c =>
    let i := df.cols.findIdx (fun n => n == c)
    (df.rows.enum).foldl
      (fun acc p =>
        match p.2.getD i Value.null with
        | .str fp => idxInsert (pathName fp) (.row p.1) acc
        | _ => acc) []

/-- The list branch of `_build_file_index`: the path key is sniffed from
the first record (`{}` when the list is empty); each record's
`item.get(path_key, "")` is reduced to a filename and mapped to the list
position. -/
def buildListIndex (rs : List Rec) : FileIndex :=
  match find_path_key_in_dict (rs.headD []) with
  | none => []
  | some k =>
    (rs.enum).foldl
      (fun acc p =>
        match recGet p.2 k (.str "") with
        | .str fp => idxInsert (pathName fp) (.pos p.1) acc
        | _ => acc) []

/-- The dict branch of `_build_file_index`.  `next(iter(dict))` on an
empty mapping raises `StopIteration`, which the surrounding
`load_manifest` re-raises; on a non-empty mapping the path key is sniffed
from the first entry's record and every entry's filename is mapped to its
key. -/
def buildDictIndex (es : List (String × Rec)) : Except String FileIndex :=
  match es with
  | [] => .error "StopIteration"
  | (_, r0) :: _ =>
    match find_path_key_in_dict r0 with
    | none => .ok []
    | some pk =>
      .ok (es.foldl
        (fun acc p =>
          match recGet p.2 pk (.str "") with
          | .str fp => idxInsert (pathName fp) (.key p.1) acc
          | _ => acc) [])

/-- `_build_file_index`, dispatching on the manifest shape; only the dict
branch can raise. -/
def build_file_index : Manifest → Except String FileIndex
  | .table df => .ok (buildTableIndex df)
  | .list rs => .ok (buildListIndex rs)
  | .dict es => buildDictIndex es

/-- `load_manifest` after the format-dispatched parse (the parse itself is
the external persistence adapter): the loaded structure is kept and the
file index is built; any exception raised while indexing is logged and
re-raised by the surrounding `try`. -/
def load_manifest (m : Manifest) : Except String (Manifest × FileIndex) :=
  (build_file_index m).map (fun i => (m, i))

/- ----------------------------------------------------------------------
`find_audio_file` and `update_manifest_with_metadata`
(src/manifest_handler.py).
---------------------------------------------------------------------- -/

/-- Does the regex pattern `pat` match at the front of `hay`?  Models
Python `re` matching for patterns whose only metacharacter is `.` (which
matches any single character) — the case for the filename patterns pandas
`str.contains` receives here; other metacharacters are not modelled. -/
def dotMatchesAt : List Char → List Char → Bool
  | [], _ => true
  | _ :: _, [] => false
  | p :: ps, c :: cs => (p == '.' || p == c) && dotMatchesAt ps cs

/-- `re.search(pat, hay)` succeeds: the pattern matches at some position.
This is what pandas `Series.str.contains(pat)` computes with its default
`regex=True`. -/
def regexSearch (pat : List Char) : List Char → Bool
  | [] => dotMatchesAt pat []
  | s@(_ :: t) => dotMatchesAt pat s || regexSearch pat t

/-- `Series.str.contains(fn, na=False)` on `String`s: regex search, with
non-string cells counting as no match. -/
def regexSearchStr (pat hay : String) : Bool := regexSearch pat.data hay.data

/-- A DataFrame row materialised as a dict (`df.iloc[i].to_dict()`). -/
def tableRowRec (df : DFrame) (i : Nat) : Rec := df.cols.zip (df.rows.getD i [])

/-- The exact-index hit of `find_audio_file`: the record materialised from
the locator (`iloc[idx].to_dict()` for a DataFrame, `data[idx]` for a
list, `data[key]` for a mapping).  A locator that does not fit the
manifest shape cannot arise in the program flow and yields `none`. -/
def materialize (m : Manifest) (l : Loc) : Option Rec :=
  match m, l with
  | .table df, .row i => some (tableRowRec df i)
  | .list rs, .pos i => rs.get? i
  | .dict es, .key k => es.lookup k
  | _, _ => none

/-- The DataFrame flexible search: rows whose path cell matches the
filename under pandas regex containment, first match materialised. -/
def tableFlexSearch (df : DFrame) (fn : String) : Option Rec :=
  match find_path_column df with
  | none => none
  | some c =>
    let i := df.cols.findIdx (fun n => n == c)
    (df.rows.find? (fun r =>
        match r.getD i Value.null with
        | .str s => regexSearchStr fn s
        | _ => false)).map (fun r => df.cols.zip r)

/-- The list flexible-search loop: the first record whose
`item.get(path_key, "")` contains the filename as a literal substring.
Non-string path values are skipped (Python would raise a `TypeError`
there; no claim exercises that case). -/
def listFlexLoop (pk fn : String) : List Rec → Option Rec
  | [] => none
  | r :: rest =>
    match recGet r pk (.str "") with
    | .str s => if hasSubStr fn s then some r else listFlexLoop pk fn rest
    | _ => listFlexLoop pk fn rest

/-- The list branch of the flexible search (path key sniffed from the
first record, `{}` for an empty list). -/
def listFlexSearch (rs : List Rec) (fn : String) : Option Rec :=
  match find_path_key_in_dict (rs.headD []) with
  | none => none
  | some pk => listFlexLoop pk fn rs

/-- The dict flexible-search loop: the first entry whose path value
contains the filename as a substring, returned as `{**item, 'id': key}`. -/
def dictFlexLoop (pk fn : String) : List (String × Rec) → Option Rec
  | [] => none
  | (k, r) :: rest =>
    match recGet r pk (.str "") with
    | .str s => if hasSubStr fn s then some (setField r "id" (.str k)) else dictFlexLoop pk fn rest
    | _ => dictFlexLoop pk fn rest

/-- The dict branch of the flexible search.  On an empty mapping
`next(iter(...))` would raise; that state is unreachable because
`load_manifest` already raised for it, and is modelled as `none`. -/
def dictFlexSearch (es : List (String × Rec)) (fn : String) : Option Rec :=
  match es with
  | [] => none
  | (_, r0) :: _ =>
    match find_path_key_in_dict r0 with
    | none => none
    | some pk => dictFlexLoop pk fn es

/-- `find_audio_file`: reduce the argument to a bare filename, try the
exact index, and only on a miss fall back to the per-shape flexible
search. -/
def find_audio_file (m : Manifest) (index : FileIndex) (audio_filename : String) : Option Rec :=
  let fn := pathName audio_filename
  match index.lookup fn with
  | some l => materialize m l
  | none =>
    match m with
    | .table df => tableFlexSearch df fn
    | .list rs => listFlexSearch rs fn
    | .dict es => dictFlexSearch es fn

/-- The three metadata columns `update_manifest_with_metadata` writes. -/
def metaCols : List String := ["isrc", "track_title", "artist"]

/-- `metadata.get(k)` for the three optional fields: Python `None` becomes
`null`. -/
def optVal : Option String → Value
  | some s => .str s
  | none => .null

/-- One step of the column-creation loop of the DataFrame branch:
`if col not in updated_manifest.columns: updated_manifest[col] = None`
(a new all-`None` column appended on the right). -/
def addColStep (acc : DFrame) (c : String) : DFrame :=
  if acc.cols.contains c then acc
  else ⟨acc.cols ++ [c], acc.rows.map (fun r => r ++ [Value.null])⟩

/-- The column-creation loop of the DataFrame branch, over the three
metadata columns. -/
def addMissingCols (df : DFrame) : DFrame := metaCols.foldl addColStep df

/-- `updated_manifest.loc[i, c] = v` for an existing column `c` on the
default `RangeIndex`: replace the cell at row `i`, column position of `c`. -/
def dfSetCell (df : DFrame) (i : Nat) (c : String) (v : Value) : DFrame :=
  ⟨df.cols, df.rows.set i ((df.rows.getD i []).set (df.cols.findIdx (fun n => n == c)) v)⟩

/-- The three sequential field assignments every branch of the metadata
loop performs on a located record:
`rec['isrc'] = ...; rec['track_title'] = ...; rec['artist'] = ...`. -/
def setMetaFields (r : Rec) (mr : MetaRec) : Rec :=
  setField (setField (setField r "isrc" (optVal mr.isrc))
      "track_title" (optVal mr.track_title))
    "artist" (optVal mr.artist)

/-- The three sequential `.loc` cell assignments of the DataFrame branch on
the located row. -/
def dfSetMeta (df : DFrame) (i : Nat) (mr : MetaRec) : DFrame :=
  dfSetCell (dfSetCell (dfSetCell df i "isrc" (optVal mr.isrc))
      i "track_title" (optVal mr.track_title))
    i "artist" (optVal mr.artist)

/-- One metadata record applied to the DataFrame copy: an exact index hit
writes the three cells of the located row; a miss (or a locator of the
wrong kind, unreachable in the program flow) changes nothing. -/
def applyMetaTable (index : FileIndex) (df : DFrame) (mr : MetaRec) : DFrame :=
  match index.lookup (pathName mr.audio_filename) with
  | some (.row i) => dfSetMeta df i mr
  | _ => df

/-- One metadata record applied to the list shape. -/
def applyMetaList (index : FileIndex) (rs : List Rec) (mr : MetaRec) : List Rec :=
  match index.lookup (pathName mr.audio_filename) with
  | some (.pos i) => rs.set i (setMetaFields (rs.getD i []) mr)
  | _ => rs

/-- One metadata record applied to the dict shape. -/
def applyMetaDict (index : FileIndex) (es : List (String × Rec)) (mr : MetaRec) :
    List (String × Rec) :=
  match index.lookup (pathName mr.audio_filename) with
  | some (.key k) =>
    es.map (fun p => if p.1 == k then (p.1, setMetaFields p.2 mr) else p)
  | _ => es

/-- `update_manifest_with_metadata`: the DataFrame branch copies the
frame, creates the three metadata columns when missing, then walks the
metadata list writing exact-index hits; the list and dict branches walk
the metadata list mutating the located records in place.  The file index
is the one built at load time and is not rebuilt. -/
def update_manifest_with_metadata (m : Manifest) (index : FileIndex)
    (metadata_list : List MetaRec) : Manifest :=
  match m with
  | .table df => .table (metadata_list.foldl (applyMetaTable index) (addMissingCols df))
  | .list rs => .list (metadata_list.foldl (applyMetaList index) rs)
  | .dict es => .dict (metadata_list.foldl (applyMetaDict index) es)

/-- Number of manifest records (`len` of the underlying structure). -/
def manifestCount : Manifest → Nat
  | .table df => df.rows.length
  | .list rs => rs.length
  | .dict es => es.length

/- ----------------------------------------------------------------------
Helper lemmas about the embedded operations.
---------------------------------------------------------------------- -/

theorem addColStep_rows_length (acc : DFrame) (c : String) :
    (addColStep acc c).rows.length = acc.rows.length := by
  unfold addColStep
  split <;> simp

theorem addColStep_cols_pre (acc : DFrame) (c : String) :
    acc.cols <+: (addColStep acc c).cols := by
  unfold addColStep
  split
  · exact List.prefix_refl _
  · exact ⟨[c], rfl⟩

theorem mem_addColStep_cols (acc : DFrame) (c x : String) :
    x ∈ (addColStep acc c).cols ↔ x ∈ acc.cols ∨ x = c := by
  unfold addColStep
  split
  · rename_i h
    rw [List.contains_iff_exists_mem_beq] at h
    obtain ⟨a, ha, hb⟩ := h
    constructor
    · exact Or.inl
    · rintro (hx | rfl)
      · exact hx
      · exact (beq_iff_eq.mp hb) ▸ ha
  · simp

theorem addMissingCols_rows_length (df : DFrame) :
    (addMissingCols df).rows.length = df.rows.length := by
  simp only [addMissingCols, metaCols, List.foldl]
  rw [addColStep_rows_length, addColStep_rows_length, addColStep_rows_length]

theorem addMissingCols_cols_pre (df : DFrame) :
    df.cols <+: (addMissingCols df).cols := by
  simp only [addMissingCols, metaCols, List.foldl]
  exact ((addColStep_cols_pre df "isrc").trans
    (addColStep_cols_pre _ "track_title")).trans (addColStep_cols_pre _ "artist")

theorem mem_addMissingCols_cols (df : DFrame) (x : String) :
    x ∈ (addMissingCols df).cols ↔ x ∈ df.cols ∨ x ∈ metaCols := by
  simp only [addMissingCols, metaCols, List.foldl]
  rw [mem_addColStep_cols, mem_addColStep_cols, mem_addColStep_cols]
  simp only [List.mem_cons, List.not_mem_nil, or_false]
  tauto

theorem addMissingCols_of_contains (df : DFrame)
    (h : ∀ c ∈ metaCols, df.cols.contains c = true) : addMissingCols df = df := by
  simp only [addMissingCols, metaCols, List.foldl]
  have h1 : addColStep df "isrc" = df := by
    unfold addColStep
    rw [if_pos (h "isrc" (by simp [metaCols]))]
  rw [h1]
  have h2 : addColStep df "track_title" = df := by
    unfold addColStep
    rw [if_pos (h "track_title" (by simp [metaCols]))]
  rw [h2]
  unfold addColStep
  rw [if_pos (h "artist" (by simp [metaCols]))]

theorem lookup_cons {β : Type} (k a : String) (v : β) (t : List (String × β)) :
    List.lookup k ((a, v) :: t) = if k == a then some v else List.lookup k t := by
  rw [List.lookup]
  cases h : k == a <;> simp [h]

theorem lookup_append (k : String) (l₁ l₂ : List (String × Value)) :
    (l₁ ++ l₂).lookup k =
      match l₁.lookup k with
      | some v => some v
      | none => l₂.lookup k := by
  induction l₁ with
  | nil => simp [List.lookup]
  | cons p t ih =>
    obtain ⟨a, v⟩ := p
    rw [List.cons_append, lookup_cons, lookup_cons]
    by_cases h : k == a
    · simp [h]
    · simp [h, ih]

theorem lookup_eq_none_of_not_any (r : Rec) (k : String)
    (h : r.any (fun kv => kv.1 == k) = false) : r.lookup k = none := by
  induction r with
  | nil => rfl
  | cons p t ih =>
    obtain ⟨a, v⟩ := p
    simp only [List.any_cons, Bool.or_eq_false_iff] at h
    rw [lookup_cons, if_neg ?_]
    · exact ih h.2
    · simp only [beq_iff_eq]
      exact fun e => absurd (beq_iff_eq.mpr e.symm) (by simp [h.1])

theorem lookup_map_overwrite_self (r : Rec) (k : String) (v : Value)
    (h : r.any (fun kv => kv.1 == k) = true) :
    (r.map (fun kv => if kv.1 == k then (k, v) else kv)).lookup k = some v := by
  induction r with
  | nil => simp at h
  | cons p t ih =>
    obtain ⟨a, b⟩ := p
    by_cases ha : (a == k) = true
    · simp only [List.map_cons, ha, if_pos]
      rw [lookup_cons, if_pos (by simp)]
    · simp only [List.any_cons] at h
      simp only [List.map_cons, ha, Bool.false_eq_true, ite_false]
      rw [lookup_cons, if_neg ?_]
      · exact ih (by simpa [ha] using h)
      · simp only [beq_iff_eq]
        exact fun e => ha (beq_iff_eq.mpr e.symm)

theorem lookup_map_overwrite_ne (r : Rec) (k k' : String) (v : Value) (hne : k ≠ k') :
    (r.map (fun kv => if kv.1 == k' then (k', v) else kv)).lookup k = r.lookup k := by
  induction r with
  | nil => rfl
  | cons p t ih =>
    obtain ⟨a, b⟩ := p
    by_cases ha : (a == k') = true
    · simp only [List.map_cons, ha, if_pos]
      rw [lookup_cons, lookup_cons, if_neg (by simpa using hne),
        if_neg (by rw [show a = k' from beq_iff_eq.mp ha]; simpa using hne)]
      exact ih
    · simp only [List.map_cons, ha, Bool.false_eq_true, ite_false]
      rw [lookup_cons, lookup_cons]
      by_cases hk : (k == a) = true
      · simp [hk]
      · rw [if_neg hk, if_neg hk]
        exact ih

theorem setField_lookup_self (r : Rec) (k : String) (v : Value) :
    (setField r k v).lookup k = some v := by
  unfold setField
  split
  · exact lookup_map_overwrite_self r k v (by assumption)
  · rename_i h
    rw [lookup_append, lookup_eq_none_of_not_any r k (Bool.eq_false_iff.mpr h)]
    rw [lookup_cons, if_pos (by simp)]

theorem setField_lookup_ne (r : Rec) (k k' : String) (v : Value) (hne : k ≠ k') :
    (setField r k' v).lookup k = r.lookup k := by
  unfold setField
  split
  · exact lookup_map_overwrite_ne r k k' v hne
  · rw [lookup_append]
    cases h : r.lookup k with
    | some w => rfl
    | none =>
      rw [lookup_cons, if_neg (by simpa using hne)]
      rfl

def keySet (r : Rec) (k : String) (v : Value) : Prop :=
  (∀ p ∈ r, p.1 = k → p.2 = v) ∧ r.any (fun p => p.1 == k) = true

theorem keySet_setField (r : Rec) (k : String) (v : Value) : keySet (setField r k v) k v := by
  unfold setField
  split
  · rename_i h
    refine ⟨?_, ?_⟩
    · intro p hp hk
      obtain ⟨q, hq, hqe⟩ := List.mem_map.mp hp
      by_cases hq1 : (q.1 == k) = true
      · simp only [hq1, if_pos] at hqe
        simp [← hqe]
      · simp only [hq1, Bool.false_eq_true, ite_false] at hqe
        rw [← hqe] at hk
        exact absurd (beq_iff_eq.mpr hk) hq1
    · rw [List.any_eq_true] at h ⊢
      obtain ⟨q, hq, hqk⟩ := h
      exact ⟨(k, v), List.mem_map.mpr ⟨q, hq, by simp [hqk]⟩, by simp⟩
  · rename_i h
    refine ⟨?_, ?_⟩
    · intro p hp hk
      rcases List.mem_append.mp hp with hl | hr
      · exact absurd (List.any_eq_true.mpr ⟨p, hl, by simp [hk]⟩) h
      · simp only [List.mem_singleton] at hr
        simp [hr]
    · exact List.any_eq_true.mpr ⟨(k, v), by simp⟩

theorem keySet_setField_ne (r : Rec) (k k' : String) (v v' : Value) (hne : k' ≠ k)
    (h : keySet r k v) : keySet (setField r k' v') k v := by
  obtain ⟨hall, hany⟩ := h
  unfold setField
  split
  · refine ⟨?_, ?_⟩
    · intro p hp hk
      obtain ⟨q, hq, hqe⟩ := List.mem_map.mp hp
      by_cases hq1 : (q.1 == k') = true
      · simp only [hq1, if_pos] at hqe
        rw [← hqe] at hk
        exact absurd hk hne
      · simp only [hq1, Bool.false_eq_true, ite_false] at hqe
        exact hall p (hqe ▸ hq) hk
    · rw [List.any_eq_true] at hany ⊢
      obtain ⟨q, hq, hqk⟩ := hany
      refine ⟨q, List.mem_map.mpr ⟨q, hq, ?_⟩, hqk⟩
      rw [if_neg (by rw [show q.1 = k from beq_iff_eq.mp hqk]; simpa using hne.symm)]
  · refine ⟨?_, ?_⟩
    · intro p hp hk
      rcases List.mem_append.mp hp with hl | hr
      · exact hall p hl hk
      · simp only [List.mem_singleton] at hr
        rw [hr] at hk
        exact absurd hk hne
    · rw [List.any_eq_true] at hany ⊢
      obtain ⟨q, hq, hqk⟩ := hany
      exact ⟨q, List.mem_append_left _ hq, hqk⟩

theorem setField_of_keySet (r : Rec) (k : String) (v : Value) (h : keySet r k v) :
    setField r k v = r := by
  obtain ⟨hall, hany⟩ := h
  unfold setField
  rw [if_pos hany]
  have hid : ∀ p ∈ r, (if p.1 == k then ((k, v) : String × Value) else p) = p := by
    intro p hp
    by_cases hk : (p.1 == k) = true
    · rw [if_pos hk]
      have hv := hall p hp (beq_iff_eq.mp hk)
      rw [← beq_iff_eq.mp hk, ← hv]
    · rw [if_neg hk]
  calc List.map (fun p => if p.1 == k then ((k, v) : String × Value) else p) r
      = List.map id r := List.map_congr_left hid
    _ = r := List.map_id r

/-- The `keySet` facts holding after `setMetaFields`. -/
theorem keySet_setMetaFields (r : Rec) (mr : MetaRec) :
    keySet (setMetaFields r mr) "isrc" (optVal mr.isrc) ∧
      keySet (setMetaFields r mr) "track_title" (optVal mr.track_title) ∧
      keySet (setMetaFields r mr) "artist" (optVal mr.artist) := by
  unfold setMetaFields
  refine ⟨?_, ?_, ?_⟩
  · exact keySet_setField_ne _ _ _ _ _ (by decide)
      (keySet_setField_ne _ _ _ _ _ (by decide) (keySet_setField _ _ _))
  · exact keySet_setField_ne _ _ _ _ _ (by decide) (keySet_setField _ _ _)
  · exact keySet_setField _ _ _

theorem setMetaFields_idem (r : Rec) (mr : MetaRec) :
    setMetaFields (setMetaFields r mr) mr = setMetaFields r mr := by
  obtain ⟨h1, h2, h3⟩ := keySet_setMetaFields r mr
  have hu : setMetaFields (setMetaFields r mr) mr =
      setField (setField (setField (setMetaFields r mr) "isrc" (optVal mr.isrc))
          "track_title" (optVal mr.track_title))
        "artist" (optVal mr.artist) := rfl
  rw [hu, setField_of_keySet _ _ _ h1, setField_of_keySet _ _ _ h2,
    setField_of_keySet _ _ _ h3]

theorem setMetaFields_lookup_ne (r : Rec) (mr : MetaRec) (k : String)
    (h : ¬ k ∈ metaCols) : (setMetaFields r mr).lookup k = r.lookup k := by
  simp only [metaCols, List.mem_cons, List.not_mem_nil, or_false, not_or] at h
  unfold setMetaFields
  rw [setField_lookup_ne _ _ _ _ h.2.2, setField_lookup_ne _ _ _ _ h.2.1,
    setField_lookup_ne _ _ _ _ h.1]

theorem setMetaFields_lookup_meta (r : Rec) (mr : MetaRec) :
    (setMetaFields r mr).lookup "isrc" = some (optVal mr.isrc) ∧
      (setMetaFields r mr).lookup "track_title" = some (optVal mr.track_title) ∧
      (setMetaFields r mr).lookup "artist" = some (optVal mr.artist) := by
  unfold setMetaFields
  refine ⟨?_, ?_, ?_⟩
  · rw [setField_lookup_ne _ _ _ _ (by decide), setField_lookup_ne _ _ _ _ (by decide),
      setField_lookup_self]
  · rw [setField_lookup_ne _ _ _ _ (by decide), setField_lookup_self]
  · exact setField_lookup_self _ _ _

theorem getD_set_self {α : Type} (l : List α) (i : Nat) (x d : α) (h : i < l.length) :
    (l.set i x).getD i d = x := by
  simp [List.getD, List.getElem?_set_eq_of_lt, h]

theorem getD_set_ne {α : Type} (l : List α) (i j : Nat) (x d : α) (h : i ≠ j) :
    (l.set i x).getD j d = l.getD j d := by
  simp [List.getD, List.getElem?_set_ne h]

theorem set3_idem {α : Type} (r : List α) (j1 j2 j3 : Nat) (v1 v2 v3 : α) :
    ((((((r.set j1 v1).set j2 v2).set j3 v3).set j1 v1).set j2 v2).set j3 v3)
      = ((r.set j1 v1).set j2 v2).set j3 v3 := by
  apply List.ext_getElem?
  intro n
  simp only [List.getElem?_set, List.length_set]
  by_cases h3 : j3 = n <;> by_cases h2 : j2 = n <;> by_cases h1 : j1 = n <;>
    simp [h1, h2, h3]

theorem set_nil {α : Type} (i : Nat) (x : α) : ([] : List α).set i x = [] := by
  cases i <;> rfl

/-- `dfSetCell` on a frame whose rows are already a single-row update:
the two writes merge into one row update. -/
theorem dfSetCell_set_literal (cols : List String) (rows : List (List Value)) (i : Nat)
    (x : List Value) (c : String) (v : Value) :
    dfSetCell ⟨cols, rows.set i x⟩ i c v =
      ⟨cols, rows.set i (x.set (cols.findIdx (fun n => n == c)) v)⟩ := by
  unfold dfSetCell
  dsimp only
  by_cases h : i < rows.length
  · rw [getD_set_self _ _ _ _ h, List.set_set]
  · have hs : ∀ y, rows.set i y = rows := fun y => List.set_eq_of_length_le (by omega)
    simp only [hs]

/-- `dfSetMeta` on a frame whose rows are already a single-row update. -/
theorem dfSetMeta_set_literal (cols : List String) (rows : List (List Value)) (i : Nat)
    (x : List Value) (mr : MetaRec) :
    dfSetMeta ⟨cols, rows.set i x⟩ i mr =
      ⟨cols, rows.set i
        (((x.set (cols.findIdx (fun n => n == "isrc")) (optVal mr.isrc)).set
            (cols.findIdx (fun n => n == "track_title")) (optVal mr.track_title)).set
          (cols.findIdx (fun n => n == "artist")) (optVal mr.artist))⟩ := by
  unfold dfSetMeta
  rw [dfSetCell_set_literal, dfSetCell_set_literal, dfSetCell_set_literal]

/-- `dfSetMeta` in closed form: the three cell writes land in the row at
position `i`, at the column positions of the three metadata columns. -/
theorem dfSetMeta_eq (df : DFrame) (i : Nat) (mr : MetaRec) :
    dfSetMeta df i mr = ⟨df.cols,
      df.rows.set i
        ((((df.rows.getD i []).set (df.cols.findIdx (fun n => n == "isrc")) (optVal mr.isrc)).set
            (df.cols.findIdx (fun n => n == "track_title")) (optVal mr.track_title)).set
          (df.cols.findIdx (fun n => n == "artist")) (optVal mr.artist))⟩ := by
  have h0 : dfSetCell df i "isrc" (optVal mr.isrc) =
      ⟨df.cols, df.rows.set i
        ((df.rows.getD i []).set (df.cols.findIdx (fun n => n == "isrc")) (optVal mr.isrc))⟩ := rfl
  unfold dfSetMeta
  rw [h0, dfSetCell_set_literal, dfSetCell_set_literal]

theorem dfSetMeta_cols (df : DFrame) (i : Nat) (mr : MetaRec) :
    (dfSetMeta df i mr).cols = df.cols := by
  rw [dfSetMeta_eq]

theorem dfSetMeta_rows_length (df : DFrame) (i : Nat) (mr : MetaRec) :
    (dfSetMeta df i mr).rows.length = df.rows.length := by
  rw [dfSetMeta_eq]
  simp

theorem dfSetMeta_idem (df : DFrame) (i : Nat) (mr : MetaRec) :
    dfSetMeta (dfSetMeta df i mr) i mr = dfSetMeta df i mr := by
  rw [dfSetMeta_eq df i mr, dfSetMeta_set_literal, set3_idem]

theorem contains_of_mem (l : List String) (c : String) (h : c ∈ l) : l.contains c = true := by
  simpa using h

theorem applyMetaList_idem (index : FileIndex) (rs : List Rec) (mr : MetaRec) :
    applyMetaList index (applyMetaList index rs mr) mr = applyMetaList index rs mr := by
  unfold applyMetaList
  cases hl : index.lookup (pathName mr.audio_filename) with
  | none => rfl
  | some l =>
    cases l with
    | row i => rfl
    | key k => rfl
    | pos i =>
      dsimp only
      by_cases h : i < rs.length
      · rw [getD_set_self _ _ _ _ h, setMetaFields_idem, List.set_set]
      · have hs : ∀ x, rs.set i x = rs := fun x => List.set_eq_of_length_le (by omega)
        simp only [hs]

theorem applyMetaDict_idem (index : FileIndex) (es : List (String × Rec)) (mr : MetaRec) :
    applyMetaDict index (applyMetaDict index es mr) mr = applyMetaDict index es mr := by
  unfold applyMetaDict
  cases hl : index.lookup (pathName mr.audio_filename) with
  | none => rfl
  | some l =>
    cases l with
    | row i => rfl
    | pos i => rfl
    | key k =>
      dsimp only
      rw [List.map_map]
      apply List.map_congr_left
      intro p _
      by_cases hp : (p.1 == k) = true
      · simp only [Function.comp_apply, hp, if_pos, setMetaFields_idem]
      · simp only [Function.comp_apply, hp, Bool.false_eq_true, ite_false]

theorem applyMetaTable_idem (index : FileIndex) (df : DFrame) (mr : MetaRec) :
    applyMetaTable index (applyMetaTable index df mr) mr = applyMetaTable index df mr := by
  unfold applyMetaTable
  cases hl : index.lookup (pathName mr.audio_filename) with
  | none => rfl
  | some l =>
    cases l with
    | pos i => rfl
    | key k => rfl
    | row i =>
      dsimp only
      exact dfSetMeta_idem df i mr

theorem applyMetaTable_cols (index : FileIndex) (df : DFrame) (mr : MetaRec) :
    (applyMetaTable index df mr).cols = df.cols := by
  unfold applyMetaTable
  cases index.lookup (pathName mr.audio_filename) with
  | none => rfl
  | some l => cases l <;> rfl

theorem findIdx_lt_of_mem (l : List String) (c : String) (h : c ∈ l) :
    l.findIdx (fun n => n == c) < l.length :=
  List.findIdx_lt_length_of_exists ⟨c, h, by simp⟩

theorem get?_findIdx_eq (cols : List String) (c x : String)
    (h : cols.get? (cols.findIdx (fun n => n == c)) = some x) : x = c := by
  rw [List.get?_eq_getElem?] at h
  have hlt : cols.findIdx (fun n => n == c) < cols.length := by
    by_contra hge
    rw [List.getElem?_eq_none (by omega)] at h
    cases h
  have hp := @List.findIdx_getElem _ (fun n => n == c) cols hlt
  rw [List.getElem?_eq_getElem hlt] at h
  have hx : cols[cols.findIdx (fun n => n == c)] = x := Option.some_injective _ h
  rw [hx] at hp
  exact beq_iff_eq.mp hp

theorem get?_findIdx_of_mem (cols : List String) (c : String) (h : c ∈ cols) :
    cols.get? (cols.findIdx (fun n => n == c)) = some c := by
  have hlt := findIdx_lt_of_mem cols c h
  rw [List.get?_eq_get hlt]
  exact congrArg some (get?_findIdx_eq cols c _ (List.get?_eq_get hlt))

theorem get?_findIdx_ne (cols : List String) (c cp : String) (hne : cp ≠ c) :
    ∀ x : String, cols.get? (cols.findIdx (fun n => n == cp)) = some x → x ≠ c :=
  fun x hx => by
    rw [get?_findIdx_eq _ _ _ hx]
    exact hne

/-- Writing a row cell at a position whose column name is not `c` (or at a
position outside the columns) does not change the `c` entry of the
materialised row. -/
theorem zip_lookup_set_other (cols : List String) (row : List Value) (j : Nat) (v : Value)
    (c : String) (hc : ∀ x, cols.get? j = some x → x ≠ c) :
    (cols.zip (row.set j v)).lookup c = (cols.zip row).lookup c := by
  induction cols generalizing row j with
  | nil => simp
  | cons a cs ih =>
    cases row with
    | nil => rw [set_nil]
    | cons b bs =>
      cases j with
      | zero =>
        have ha : a ≠ c := hc a rfl
        rw [List.set_cons_zero, List.zip_cons_cons, List.zip_cons_cons, lookup_cons, lookup_cons,
          if_neg (by simpa [beq_iff_eq] using fun e => ha e.symm),
          if_neg (by simpa [beq_iff_eq] using fun e => ha e.symm)]
      | succ n =>
        rw [List.set_cons_succ, List.zip_cons_cons, List.zip_cons_cons, lookup_cons, lookup_cons]
        by_cases hca : (c == a) = true
        · rw [if_pos hca, if_pos hca]
        · rw [if_neg hca, if_neg hca]
          exact ih bs n (fun x hx => hc x hx)

/-- Writing a row cell at the position `findIdx` selects for column `c`
makes the materialised row's `c` entry the written value, provided the
position exists in the row. -/
theorem zip_lookup_set_findIdx (cols : List String) (row : List Value) (c : String) (v : Value)
    (hmem : c ∈ cols) (hlt : cols.findIdx (fun n => n == c) < row.length) :
    (cols.zip (row.set (cols.findIdx (fun n => n == c)) v)).lookup c = some v := by
  induction cols generalizing row with
  | nil => exact absurd hmem (List.not_mem_nil c)
  | cons a cs ih =>
    by_cases ha : (a == c) = true
    · have h0 : (a :: cs).findIdx (fun n => n == c) = 0 := by
        rw [List.findIdx_cons, ha]
        rfl
      rw [h0] at hlt ⊢
      cases row with
      | nil => exact absurd hlt (by simp)
      | cons b bs =>
        rw [List.set_cons_zero, List.zip_cons_cons, lookup_cons,
          if_pos (beq_iff_eq.mpr (beq_iff_eq.mp ha).symm)]
    · have hs : (a :: cs).findIdx (fun n => n == c) = cs.findIdx (fun n => n == c) + 1 := by
        simp [List.findIdx_cons, Bool.eq_false_iff.mpr ha]
      have hmem' : c ∈ cs := by
        cases List.mem_cons.mp hmem with
        | inl he => exact absurd (beq_iff_eq.mpr he.symm) (by simp [ha])
        | inr ht => exact ht
      rw [hs] at hlt ⊢
      cases row with
      | nil => exact absurd hlt (by simp)
      | cons b bs =>
        rw [List.set_cons_succ, List.zip_cons_cons, lookup_cons,
          if_neg (fun hx => absurd (beq_iff_eq.mp hx).symm (by simpa using ha))]
        exact ih bs hmem' (by simpa using hlt)

/-- Rows are rectangular: every row has exactly one cell per column (the
pandas DataFrame invariant). -/
def rect (df : DFrame) : Prop := ∀ r ∈ df.rows, r.length = df.cols.length

theorem addColStep_rect (acc : DFrame) (c : String) (h : rect acc) : rect (addColStep acc c) := by
  unfold addColStep
  split
  · exact h
  · intro r hr
    obtain ⟨q, hq, hqe⟩ := List.mem_map.mp hr
    simp only [← hqe, List.length_append, List.length_cons, List.length_nil]
    simp [h q hq]

theorem addMissingCols_rect (df : DFrame) (h : rect df) : rect (addMissingCols df) := by
  simp only [addMissingCols, metaCols, List.foldl]
  exact addColStep_rect _ _ (addColStep_rect _ _ (addColStep_rect _ _ h))

theorem applyMetaTable_miss (index : FileIndex) (df : DFrame) (mr : MetaRec)
    (h : index.lookup (pathName mr.audio_filename) = none) :
    applyMetaTable index df mr = df := by
  unfold applyMetaTable
  rw [h]

theorem applyMetaList_miss (index : FileIndex) (rs : List Rec) (mr : MetaRec)
    (h : index.lookup (pathName mr.audio_filename) = none) :
    applyMetaList index rs mr = rs := by
  unfold applyMetaList
  rw [h]

theorem applyMetaDict_miss (index : FileIndex) (es : List (String × Rec)) (mr : MetaRec)
    (h : index.lookup (pathName mr.audio_filename) = none) :
    applyMetaDict index es mr = es := by
  unfold applyMetaDict
  rw [h]

theorem map_replace_lookup {β : Type} (es : List (String × β)) (k : String) (f : β → β) :
    (es.map (fun p => if p.1 == k then (p.1, f p.2) else p)).lookup k = (es.lookup k).map f := by
  induction es with
  | nil => rfl
  | cons p t ih =>
    obtain ⟨a, r⟩ := p
    by_cases hak : a = k
    · subst hak
      simp only [List.map_cons, beq_self_eq_true, if_pos]
      rw [lookup_cons, lookup_cons, if_pos (beq_self_eq_true a), if_pos (beq_self_eq_true a)]
      rfl
    · have h1 : (a == k) = false := beq_eq_false_iff_ne.mpr hak
      have h2 : (k == a) = false := beq_eq_false_iff_ne.mpr (fun e => hak e.symm)
      simp only [List.map_cons, h1, Bool.false_eq_true, ite_false]
      rw [lookup_cons, lookup_cons, if_neg (by simp [h2]), if_neg (by simp [h2])]
      exact ih

/-- The entries of a mapping-shaped manifest (observation helper for the
statements below). -/
def dictEntries : Manifest → List (String × Rec)
  | .dict es => es
  | _ => []

theorem getD_mem {α : Type} (l : List α) (i : Nat) (d : α) (h : i < l.length) :
    l.getD i d ∈ l := by
  have : l.getD i d = l[i] := by
    simp [List.getD, List.getElem?_eq_getElem h]
  rw [this]
  exact List.getElem_mem h

theorem getD_oob {α : Type} (l : List α) (j : Nat) (d : α) (h : l.length ≤ j) :
    l.getD j d = d := by
  simp [List.getD, List.getElem?_eq_none h]

theorem getD_map {α β : Type} (f : α → β) (l : List α) (j : Nat) (d : β) (da : α)
    (h : j < l.length) : (l.map f).getD j d = f (l.getD j da) := by
  simp [List.getD, List.getElem?_map, List.getElem?_eq_getElem h]

theorem applyMetaList_length (index : FileIndex) (rs : List Rec) (mr : MetaRec) :
    (applyMetaList index rs mr).length = rs.length := by
  unfold applyMetaList
  cases index.lookup (pathName mr.audio_filename) with
  | none => rfl
  | some l => cases l <;> simp

theorem applyMetaDict_length (index : FileIndex) (es : List (String × Rec)) (mr : MetaRec) :
    (applyMetaDict index es mr).length = es.length := by
  unfold applyMetaDict
  cases index.lookup (pathName mr.audio_filename) with
  | none => rfl
  | some l => cases l <;> simp

theorem applyMetaTable_rows_length (index : FileIndex) (df : DFrame) (mr : MetaRec) :
    (applyMetaTable index df mr).rows.length = df.rows.length := by
  unfold applyMetaTable
  cases index.lookup (pathName mr.audio_filename) with
  | none => rfl
  | some l => cases l <;> first | rfl | apply dfSetMeta_rows_length

theorem applyMetaList_lookup_ne (index : FileIndex) (rs : List Rec) (mr : MetaRec)
    (i : Nat) (k : String) (hk : ¬ k ∈ metaCols) :
    ((applyMetaList index rs mr).getD i []).lookup k = (rs.getD i []).lookup k := by
  unfold applyMetaList
  cases index.lookup (pathName mr.audio_filename) with
  | none => rfl
  | some l =>
    cases l with
    | row j => rfl
    | key j => rfl
    | pos j =>
      dsimp only
      by_cases hij : j = i
      · subst hij
        by_cases hj : j < rs.length
        · rw [getD_set_self _ _ _ _ hj, setMetaFields_lookup_ne _ _ _ hk]
        · rw [List.set_eq_of_length_le (by omega)]
      · rw [getD_set_ne _ _ _ _ _ hij]

theorem applyMetaList_untargeted (index : FileIndex) (rs : List Rec) (mr : MetaRec) (i : Nat)
    (h : index.lookup (pathName mr.audio_filename) ≠ some (.pos i)) :
    (applyMetaList index rs mr).getD i [] = rs.getD i [] := by
  unfold applyMetaList
  cases hl : index.lookup (pathName mr.audio_filename) with
  | none => rfl
  | some l =>
    cases l with
    | row j => rfl
    | key j => rfl
    | pos j =>
      dsimp only
      exact getD_set_ne _ _ _ _ _ (fun e => h (by rw [hl, e]))

theorem applyMetaDict_keys (index : FileIndex) (es : List (String × Rec)) (mr : MetaRec) :
    (applyMetaDict index es mr).map (fun p => p.1) = es.map (fun p => p.1) := by
  unfold applyMetaDict
  cases index.lookup (pathName mr.audio_filename) with
  | none => rfl
  | some l =>
    cases l with
    | row j => rfl
    | pos j => rfl
    | key kt =>
      dsimp only
      rw [List.map_map]
      refine List.map_congr_left (fun p _ => ?_)
      dsimp only [Function.comp]
      split
      · rfl
      · rfl

theorem applyMetaDict_lookup_ne (index : FileIndex) (es : List (String × Rec)) (mr : MetaRec)
    (j : Nat) (k : String) (hk : ¬ k ∈ metaCols) :
    ((applyMetaDict index es mr).getD j ("", [])).2.lookup k =
      ((es.getD j ("", [])).2).lookup k := by
  unfold applyMetaDict
  cases index.lookup (pathName mr.audio_filename) with
  | none => rfl
  | some l =>
    cases l with
    | row i => rfl
    | pos i => rfl
    | key kt =>
      dsimp only
      by_cases hj : j < es.length
      · rw [getD_map _ _ _ _ ("", ([] : Rec)) hj]
        by_cases hp : ((es.getD j ("", [])).1 == kt) = true
        · simp only [hp, if_pos]
          exact setMetaFields_lookup_ne _ _ _ hk
        · simp only [hp, Bool.false_eq_true, ite_false]
      · rw [getD_oob _ _ _ (by simpa using Nat.le_of_not_lt hj),
          getD_oob _ _ _ (Nat.le_of_not_lt hj)]

theorem applyMetaDict_untargeted (index : FileIndex) (es : List (String × Rec)) (mr : MetaRec)
    (j : Nat)
    (h : index.lookup (pathName mr.audio_filename) ≠ some (.key (es.getD j ("", [])).1)) :
    (applyMetaDict index es mr).getD j ("", []) = es.getD j ("", []) := by
  unfold applyMetaDict
  cases hl : index.lookup (pathName mr.audio_filename) with
  | none => rfl
  | some l =>
    cases l with
    | row i => rfl
    | pos i => rfl
    | key kt =>
      dsimp only
      by_cases hj : j < es.length
      · rw [getD_map _ _ _ _ ("", ([] : Rec)) hj]
        have hne : ¬ ((es.getD j ("", [])).1 == kt) = true :=
          fun hp => h (by rw [hl, beq_iff_eq.mp hp])
        rw [if_neg hne]
      · rw [getD_oob _ _ _ (by simpa using Nat.le_of_not_lt hj),
          getD_oob _ _ _ (Nat.le_of_not_lt hj)]

theorem applyMetaTable_cell_ne (index : FileIndex) (df : DFrame) (mr : MetaRec)
    (i : Nat) (k : String) (hk : ¬ k ∈ metaCols) :
    (tableRowRec (applyMetaTable index df mr) i).lookup k = (tableRowRec df i).lookup k := by
  have hk1 : ("isrc" : String) ≠ k := fun e => hk (e ▸ (by simp [metaCols]))
  have hk2 : ("track_title" : String) ≠ k := fun e => hk (e ▸ (by simp [metaCols]))
  have hk3 : ("artist" : String) ≠ k := fun e => hk (e ▸ (by simp [metaCols]))
  unfold applyMetaTable
  cases index.lookup (pathName mr.audio_filename) with
  | none => rfl
  | some l =>
    cases l with
    | pos j => rfl
    | key kt => rfl
    | row j =>
      dsimp only
      unfold tableRowRec
      rw [dfSetMeta_cols, dfSetMeta_eq]
      dsimp only
      by_cases hij : j = i
      · subst hij
        by_cases hj : j < df.rows.length
        · rw [getD_set_self _ _ _ _ hj,
            zip_lookup_set_other _ _ _ _ _ (get?_findIdx_ne _ k "artist" hk3),
            zip_lookup_set_other _ _ _ _ _ (get?_findIdx_ne _ k "track_title" hk2),
            zip_lookup_set_other _ _ _ _ _ (get?_findIdx_ne _ k "isrc" hk1)]
        · rw [List.set_eq_of_length_le (by omega)]
      · rw [getD_set_ne _ _ _ _ _ hij]

theorem applyMetaTable_untargeted (index : FileIndex) (df : DFrame) (mr : MetaRec) (i : Nat)
    (h : index.lookup (pathName mr.audio_filename) ≠ some (.row i)) :
    (applyMetaTable index df mr).rows.getD i [] = df.rows.getD i [] := by
  unfold applyMetaTable
  cases hl : index.lookup (pathName mr.audio_filename) with
  | none => rfl
  | some l =>
    cases l with
    | pos j => rfl
    | key kt => rfl
    | row j =>
      dsimp only
      rw [dfSetMeta_eq]
      exact getD_set_ne _ _ _ _ _ (fun e => h (by rw [hl, e]))

theorem addColStep_cell_ne (acc : DFrame) (c : String) (i : Nat) (k : String)
    (hrect : rect acc) (hkc : k ≠ c) :
    (tableRowRec (addColStep acc c) i).lookup k = (tableRowRec acc i).lookup k := by
  unfold addColStep
  split
  · rfl
  · unfold tableRowRec
    dsimp only
    by_cases hi : i < acc.rows.length
    · rw [getD_map _ _ _ _ ([] : List Value) hi,
        List.zip_append (by rw [hrect _ (getD_mem _ _ _ hi)]), lookup_append]
      cases (acc.cols.zip (acc.rows.getD i [])).lookup k with
      | some v => rfl
      | none =>
        rw [List.zip_cons_cons, lookup_cons, if_neg (by simpa [beq_iff_eq] using hkc)]
        rfl
    · rw [getD_oob _ _ _ (by simpa using Nat.le_of_not_lt hi),
        getD_oob _ _ _ (Nat.le_of_not_lt hi), List.zip_nil_right, List.zip_nil_right]

theorem addMissingCols_cell_ne (df : DFrame) (i : Nat) (k : String)
    (hrect : rect df) (hk : ¬ k ∈ metaCols) :
    (tableRowRec (addMissingCols df) i).lookup k = (tableRowRec df i).lookup k := by
  have hk1 : k ≠ "isrc" := fun e => hk (e ▸ (by simp [metaCols]))
  have hk2 : k ≠ "track_title" := fun e => hk (e ▸ (by simp [metaCols]))
  have hk3 : k ≠ "artist" := fun e => hk (e ▸ (by simp [metaCols]))
  simp only [addMissingCols, metaCols, List.foldl]
  rw [addColStep_cell_ne _ _ _ _ (addColStep_rect _ _ (addColStep_rect _ _ hrect)) hk3,
    addColStep_cell_ne _ _ _ _ (addColStep_rect _ _ hrect) hk2,
    addColStep_cell_ne _ _ _ _ hrect hk1]

/-- The records of a list-shaped manifest (observation helper). -/
def listRecs : Manifest → List Rec
  | .list rs => rs
  | _ => []

/-- The frame of a table-shaped manifest (observation helper). -/
def tableDF : Manifest → DFrame
  | .table df => df
  | _ => ⟨[], []⟩

theorem updateList_length (index : FileIndex) (ms : List MetaRec) (rs : List Rec) :
    (ms.foldl (applyMetaList index) rs).length = rs.length := by
  induction ms generalizing rs with
  | nil => rfl
  | cons mr t ih => exact (ih _).trans (applyMetaList_length index rs mr)

theorem updateDict_length (index : FileIndex) (ms : List MetaRec) (es : List (String × Rec)) :
    (ms.foldl (applyMetaDict index) es).length = es.length := by
  induction ms generalizing es with
  | nil => rfl
  | cons mr t ih => exact (ih _).trans (applyMetaDict_length index es mr)

theorem updateTable_rows_length (index : FileIndex) (ms : List MetaRec) (df : DFrame) :
    (ms.foldl (applyMetaTable index) df).rows.length = df.rows.length := by
  induction ms generalizing df with
  | nil => rfl
  | cons mr t ih => exact (ih _).trans (applyMetaTable_rows_length index df mr)

theorem updateTable_cols_eq (index : FileIndex) (ms : List MetaRec) (df : DFrame) :
    (ms.foldl (applyMetaTable index) df).cols = df.cols := by
  induction ms generalizing df with
  | nil => rfl
  | cons mr t ih => exact (ih _).trans (applyMetaTable_cols index df mr)

theorem updateList_lookup_ne (index : FileIndex) (ms : List MetaRec) (rs : List Rec)
    (i : Nat) (k : String) (hk : ¬ k ∈ metaCols) :
    ((ms.foldl (applyMetaList index) rs).getD i []).lookup k = (rs.getD i []).lookup k := by
  induction ms generalizing rs with
  | nil => rfl
  | cons mr t ih => exact (ih _).trans (applyMetaList_lookup_ne index rs mr i k hk)

theorem updateList_untargeted (index : FileIndex) (ms : List MetaRec) (rs : List Rec) (i : Nat)
    (h : ∀ mr ∈ ms, index.lookup (pathName mr.audio_filename) ≠ some (.pos i)) :
    (ms.foldl (applyMetaList index) rs).getD i [] = rs.getD i [] := by
  induction ms generalizing rs with
  | nil => rfl
  | cons mr t ih =>
    exact (ih _ (fun mr' hm => h mr' (List.mem_cons_of_mem _ hm))).trans
      (applyMetaList_untargeted index rs mr i (h mr (List.mem_cons_self _ _)))

theorem updateDict_keys (index : FileIndex) (ms : List MetaRec) (es : List (String × Rec)) :
    (ms.foldl (applyMetaDict index) es).map (fun p => p.1) = es.map (fun p => p.1) := by
  induction ms generalizing es with
  | nil => rfl
  | cons mr t ih => exact (ih _).trans (applyMetaDict_keys index es mr)

theorem updateDict_lookup_ne (index : FileIndex) (ms : List MetaRec) (es : List (String × Rec))
    (j : Nat) (k : String) (hk : ¬ k ∈ metaCols) :
    ((ms.foldl (applyMetaDict index) es).getD j ("", [])).2.lookup k =
      ((es.getD j ("", [])).2).lookup k := by
  induction ms generalizing es with
  | nil => rfl
  | cons mr t ih => exact (ih _).trans (applyMetaDict_lookup_ne index es mr j k hk)

theorem fst_getD_of_keys (es es' : List (String × Rec)) (j : Nat)
    (h : es'.map (fun p => p.1) = es.map (fun p => p.1)) :
    (es'.getD j ("", [])).1 = (es.getD j ("", [])).1 := by
  have hlen : es'.length = es.length := by
    have hc := congrArg List.length h
    simpa using hc
  by_cases hj : j < es.length
  · have h1 : (es'.map (fun p => p.1)).getD j "" = (es.map (fun p => p.1)).getD j "" := by
      rw [h]
    rw [getD_map _ _ _ _ ("", ([] : Rec)) (by omega), getD_map _ _ _ _ ("", ([] : Rec)) hj] at h1
    exact h1
  · rw [getD_oob _ _ _ (by omega), getD_oob _ _ _ (by omega)]

theorem updateDict_untargeted (index : FileIndex) (ms : List MetaRec)
    (es : List (String × Rec)) (j : Nat)
    (h : ∀ mr ∈ ms, index.lookup (pathName mr.audio_filename) ≠
      some (.key (es.getD j ("", [])).1)) :
    (ms.foldl (applyMetaDict index) es).getD j ("", []) = es.getD j ("", []) := by
  induction ms generalizing es with
  | nil => rfl
  | cons mr t ih =>
    rw [List.foldl_cons]
    have hstep : (applyMetaDict index es mr).getD j ("", []) = es.getD j ("", []) :=
      applyMetaDict_untargeted index es mr j (h mr (List.mem_cons_self _ _))
    have hkeys := applyMetaDict_keys index es mr
    refine (ih _ ?_).trans hstep
    intro mr' hm
    rw [fst_getD_of_keys es _ j hkeys]
    exact h mr' (List.mem_cons_of_mem _ hm)

theorem updateTable_cell_ne (index : FileIndex) (ms : List MetaRec) (df : DFrame)
    (i : Nat) (k : String) (hk : ¬ k ∈ metaCols) :
    (tableRowRec (ms.foldl (applyMetaTable index) df) i).lookup k =
      (tableRowRec df i).lookup k := by
  induction ms generalizing df with
  | nil => rfl
  | cons mr t ih => exact (ih _).trans (applyMetaTable_cell_ne index df mr i k hk)

theorem updateTable_untargeted (index : FileIndex) (ms : List MetaRec) (df : DFrame) (i : Nat)
    (h : ∀ mr ∈ ms, index.lookup (pathName mr.audio_filename) ≠ some (.row i)) :
    (ms.foldl (applyMetaTable index) df).rows.getD i [] = df.rows.getD i [] := by
  induction ms generalizing df with
  | nil => rfl
  | cons mr t ih =>
    exact (ih _ (fun mr' hm => h mr' (List.mem_cons_of_mem _ hm))).trans
      (applyMetaTable_untargeted index df mr i (h mr (List.mem_cons_self _ _)))

/- ----------------------------------------------------------------------
The claims.
---------------------------------------------------------------------- -/

/-- C1 (code_bug evidence).  The structural attribute pattern
`.//*[@filename]` matches the `Item` element, whose `filename` attribute
holds `track01.wav`; the spec (and the code's own comment) say the
attribute's value is returned, but `_extract_audio_filename` computes the
attribute name as `pattern[5:-1] = "@filename"`, looks up an attribute of
that name, and so returns `None`.  `_extract_isrc`, whose attribute branch
uses the literal name `'isrc'`, does return the attribute's value. -/
theorem claim1_attr_pattern_returns_none :
    (findall (XElem.node "Root" [] none
        [XElem.node "Item" [("filename", "track01.wav")] none []]) ".//*[@filename]").map
        XElem.tag = ["Item"] ∧
    (XElem.node "Item" [("filename", "track01.wav")] none []).getAttr "filename" =
      some "track01.wav" ∧
    sliceFromDropLast 5 ".//*[@filename]" = "@filename" ∧
    extract_audio_filename (XElem.node "Root" [] none
      [XElem.node "Item" [("filename", "track01.wav")] none []]) = none ∧
    extract_isrc (XElem.node "Root" [] none
      [XElem.node "Item" [("isrc", "USABC1200001")] none []]) = some "USABC1200001" :=
  ⟨rfl, rfl, rfl, rfl, rfl⟩

/-- C2 (counterexample).  Applying zero metadata records to a loaded
one-column table does not reproduce the original field set: the three
metadata columns are created unconditionally, so a field is added. -/
theorem claim2_counterexample :
    update_manifest_with_metadata (.table ⟨["path"], [[.str "/bucket/a.wav"]]⟩) [] [] =
      .table ⟨["path", "isrc", "track_title", "artist"],
              [[.str "/bucket/a.wav", .null, .null, .null]]⟩ ∧
    ["path", "isrc", "track_title", "artist"] ≠ ["path"] :=
  ⟨rfl, by decide⟩

/-- C2 (amended).  Applying zero metadata records is the identity on list-
and mapping-shaped manifests; on a table-shaped manifest it preserves the
record count, keeps every original column (in place), and the resulting
column set is exactly the original plus the three metadata columns, which
are added when missing. -/
theorem claim2_roundtrip_amended (index : FileIndex) (rs : List Rec)
    (es : List (String × Rec)) (df : DFrame) :
    update_manifest_with_metadata (.list rs) index [] = .list rs ∧
    update_manifest_with_metadata (.dict es) index [] = .dict es ∧
    update_manifest_with_metadata (.table df) index [] = .table (addMissingCols df) ∧
    (addMissingCols df).rows.length = df.rows.length ∧
    df.cols <+: (addMissingCols df).cols ∧
    (∀ c : String, c ∈ (addMissingCols df).cols ↔ (c ∈ df.cols ∨ c ∈ metaCols)) :=
  ⟨rfl, rfl, rfl, addMissingCols_rows_length df, addMissingCols_cols_pre df,
    fun c => mem_addMissingCols_cols df c⟩

/-- C4 (confirmed).  Applying the same metadata record twice — either by a
second call to the updater or by listing the record twice in one call —
yields exactly the same manifest as applying it once.  The index is the
one built at load time (it is not rebuilt between calls), matching the
program flow. -/
theorem claim4_idempotent (m : Manifest) (index : FileIndex) (mr : MetaRec)
    (h : (index.lookup (pathName mr.audio_filename)).isSome = true) :
    update_manifest_with_metadata (update_manifest_with_metadata m index [mr]) index [mr] =
      update_manifest_with_metadata m index [mr] ∧
    update_manifest_with_metadata m index [mr, mr] =
      update_manifest_with_metadata m index [mr] := by
  have hm : ∀ df : DFrame,
      addMissingCols (applyMetaTable index (addMissingCols df) mr) =
        applyMetaTable index (addMissingCols df) mr := by
    intro df
    apply addMissingCols_of_contains
    intro c hc
    rw [applyMetaTable_cols]
    exact contains_of_mem _ _ ((mem_addMissingCols_cols df c).mpr (Or.inr hc))
  constructor
  · cases m with
    | table df =>
      simp only [update_manifest_with_metadata, List.foldl_cons, List.foldl_nil]
      rw [hm df, applyMetaTable_idem]
    | list rs =>
      simp only [update_manifest_with_metadata, List.foldl_cons, List.foldl_nil]
      rw [applyMetaList_idem]
    | dict es =>
      simp only [update_manifest_with_metadata, List.foldl_cons, List.foldl_nil]
      rw [applyMetaDict_idem]
  · cases m with
    | table df =>
      simp only [update_manifest_with_metadata, List.foldl_cons, List.foldl_nil]
      rw [applyMetaTable_idem]
    | list rs =>
      simp only [update_manifest_with_metadata, List.foldl_cons, List.foldl_nil]
      rw [applyMetaList_idem]
    | dict es =>
      simp only [update_manifest_with_metadata, List.foldl_cons, List.foldl_nil]
      rw [applyMetaDict_idem]

/-- C4 witness: a one-row list manifest whose sole filename is indexed;
applying the same metadata record twice equals applying it once. -/
theorem claim4_witness :
    update_manifest_with_metadata
        (update_manifest_with_metadata (.list [[("path", Value.str "/a/t.wav")]])
          [("t.wav", .pos 0)] [⟨"x.xml", "t.wav", some "I", some "T", some "A"⟩])
        [("t.wav", .pos 0)] [⟨"x.xml", "t.wav", some "I", some "T", some "A"⟩] =
      update_manifest_with_metadata (.list [[("path", Value.str "/a/t.wav")]])
        [("t.wav", .pos 0)] [⟨"x.xml", "t.wav", some "I", some "T", some "A"⟩] :=
  (claim4_idempotent (.list [[("path", Value.str "/a/t.wav")]]) [("t.wav", .pos 0)]
    ⟨"x.xml", "t.wav", some "I", some "T", some "A"⟩ (by decide)).1

/-- C5 (confirmed).  Whenever some priority name is present among the
fields, both sniffer functions return the first present name in priority
order — regardless of the field values, so slash-bearing strings in other
fields cannot override the name heuristic, and the content heuristic is
reached only when no priority name is present. -/
theorem claim5_name_heuristic_priority (df : DFrame) (r : Rec) :
    (priorityNames.any (fun n => df.cols.contains n) = true →
      find_path_column df = priorityNames.find? (fun n => df.cols.contains n)) ∧
    (priorityNames.any (fun n => r.any (fun kv => kv.1 == n)) = true →
      find_path_key_in_dict r = priorityNames.find? (fun n => r.any (fun kv => kv.1 == n))) := by
  constructor
  · intro h
    obtain ⟨n, hn, hcn⟩ := List.any_eq_true.mp h
    unfold find_path_column
    cases hf : priorityNames.find? (fun n => df.cols.contains n) with
    | none => exact absurd hcn (List.find?_eq_none.mp hf n hn)
    | some m => rfl
  · intro h
    obtain ⟨n, hn, hcn⟩ := List.any_eq_true.mp h
    have hr : r.isEmpty = false := by
      obtain ⟨kv, hkv, _⟩ := List.any_eq_true.mp hcn
      cases r with
      | nil => exact absurd hkv (List.not_mem_nil kv)
      | cons a t => rfl
    unfold find_path_key_in_dict
    rw [hr]
    simp only [Bool.false_eq_true, ite_false]
    cases hf : priorityNames.find? (fun n => r.any (fun kv => kv.1 == n)) with
    | none => exact absurd hcn (List.find?_eq_none.mp hf n hn)
    | some m => rfl

/-- C5 witness: a table and a record both having a `location` field first
and a `path` field second, all values slash-bearing; the sniffer returns
`path`, the higher-priority name, in both cases. -/
theorem claim5_witness :
    find_path_column ⟨["location", "path"], [[.str "x/y", .str "a/b"]]⟩ = some "path" ∧
    find_path_key_in_dict [("location", .str "x/y"), ("path", .str "a/b")] = some "path" := by
  have h := claim5_name_heuristic_priority ⟨["location", "path"], [[.str "x/y", .str "a/b"]]⟩
    [("location", .str "x/y"), ("path", .str "a/b")]
  exact ⟨(h.1 (by decide)).trans (by decide), (h.2 (by decide)).trans (by decide)⟩

/-- The scenario document of the spec:
`<Recording><FileName>track01.wav</FileName><ISRC>US-ABC-12-00001</ISRC></Recording>`. -/
def recordingDoc : XElem :=
  .node "Recording" [] none
    [.node "FileName" [] (some "track01.wav") [],
     .node "ISRC" [] (some "US-ABC-12-00001") []]

/-- C6 (confirmed).  `_process_single_xml` fails exactly when the parse
failed (`none` input) or the extracted audio filename is Python-falsy
(absent — or the empty string, which no parsed document produces);
otherwise it returns the record built from the four extractors, whose
optional fields are `none` (an explicit no-value marker, never the empty
string) when absent. -/
theorem claim6_process_failure_iff (p : String) (root : XElem) :
    process_single_xml p none = none ∧
    (process_single_xml p (some root) = none ↔
      (extract_audio_filename root = none ∨ extract_audio_filename root = some "")) ∧
    (∀ f : String, extract_audio_filename root = some f → f ≠ "" →
      process_single_xml p (some root) =
        some ⟨p, f, extract_isrc root, extract_track_title root, extract_artist root⟩) := by
  refine ⟨rfl, ?_, ?_⟩
  · unfold process_single_xml
    dsimp only
    cases hf : extract_audio_filename root with
    | none => simp
    | some f =>
      dsimp only
      by_cases he : f = ""
      · rw [if_pos (by simp [he])]
        simp [he]
      · rw [if_neg (by simp [he])]
        simp [he]
  · intro f hf hne
    unfold process_single_xml
    dsimp only
    rw [hf]
    dsimp only
    rw [if_neg (by simpa using hne)]

/-- C6 witness: the spec's scenario document parses into a record with the
filename and ISRC found and the two remaining optional fields absent. -/
theorem claim6_witness :
    process_single_xml "f.xml" (some recordingDoc) =
      some ⟨"f.xml", "track01.wav", some "US-ABC-12-00001", none, none⟩ :=
  ((claim6_process_failure_iff "f.xml" recordingDoc).2.2 "track01.wav" rfl
    (by decide)).trans rfl

/-- The extensional reading of the structural phase: the first pattern (in
list order) whose `findall` result is non-empty, paired with that result's
first element. -/
theorem structural_phase_eq (pats : List String) (root : XElem) :
    structural_phase pats root =
      (pats.find? (fun p => !(findall root p).isEmpty)).bind
        (fun p => ((findall root p).head?).map (fun e => (p, e))) := by
  induction pats with
  | nil => rfl
  | cons p rest ih =>
    unfold structural_phase
    cases hf : findall root p with
    | nil =>
      rw [List.find?_cons_of_neg _ (by simp [hf])]
      exact ih
    | cons e t =>
      rw [List.find?_cons_of_pos _ (by simp [hf])]
      simp [hf]

/-- C3 (counterexample).  A document whose only structural match comes
from the attribute pattern `.//*[@filename]`: the matched element's text
is `sometext`, but extraction returns `none` (the attribute branch looks
up the sliced name `@filename`), not the text of the first structural
match. -/
theorem claim3_counterexample :
    structural_phase filenamePatterns
        (.node "Root" [] none [.node "Item" [("filename", "x")] (some "sometext") []]) =
      some (".//*[@filename]", .node "Item" [("filename", "x")] (some "sometext") []) ∧
    (XElem.node "Item" [("filename", "x")] (some "sometext") []).text = some "sometext" ∧
    extract_audio_filename
      (.node "Root" [] none [.node "Item" [("filename", "x")] (some "sometext") []]) = none :=
  ⟨rfl, rfl, rfl⟩

/-- C3 (amended).  The structural phase picks the first pattern with at
least one match, paired with its first match; when that winning pattern is
a tag pattern (it does not start with `.//*[@`), extraction returns
exactly that element's text — the statement does not depend on any
fallback-qualifying content elsewhere in the document — and the fallback
keyword scan runs only when no structural pattern matches. -/
theorem claim3_structural_amended (root : XElem) :
    (structural_phase filenamePatterns root =
      (filenamePatterns.find? (fun p => !(findall root p).isEmpty)).bind
        (fun p => ((findall root p).head?).map (fun e => (p, e)))) ∧
    (∀ (p : String) (e : XElem), structural_phase filenamePatterns root = some (p, e) →
      strStarts ".//*[@" p = false → extract_audio_filename root = e.text) ∧
    (structural_phase filenamePatterns root = none →
      extract_audio_filename root = (iterList root).findSome? filenameFallbackElem) := by
  refine ⟨structural_phase_eq filenamePatterns root, ?_, ?_⟩
  · intro p e hs hp
    unfold extract_audio_filename
    rw [hs]
    dsimp only [structuralValue]
    rw [if_neg (by simp [hp])]
  · intro hs
    unfold extract_audio_filename
    rw [hs]

/-- C3 witness: on the spec's scenario document the first matching
structural pattern is the tag pattern `.//FileName`, and extraction
returns its first match's text. -/
theorem claim3_witness :
    extract_audio_filename recordingDoc = some "track01.wav" :=
  ((claim3_structural_amended recordingDoc).2.1 ".//FileName"
    (.node "FileName" [] (some "track01.wav") []) rfl rfl).trans rfl

/-- C7 (confirmed).  During bulk apply each metadata record is looked up
only in the exact filename index: on a miss the record is skipped — and
removing it from the batch gives the same result on every manifest,
including manifests whose flexible substring search would have matched —
while on a hit the three fields isrc, track_title and artist of the
located record receive the record's values and all other records are
untouched (for the table shape, after the unconditional column
creation). -/
theorem claim7_bulk_apply (index : FileIndex) (mr : MetaRec) :
    (∀ (m : Manifest) (ms1 ms2 : List MetaRec),
      index.lookup (pathName mr.audio_filename) = none →
      update_manifest_with_metadata m index (ms1 ++ mr :: ms2) =
        update_manifest_with_metadata m index (ms1 ++ ms2)) ∧
    (∀ (rs : List Rec) (i : Nat),
      index.lookup (pathName mr.audio_filename) = some (.pos i) → i < rs.length →
      update_manifest_with_metadata (.list rs) index [mr] =
        .list (rs.set i (setMetaFields (rs.getD i []) mr)) ∧
      (setMetaFields (rs.getD i []) mr).lookup "isrc" = some (optVal mr.isrc) ∧
      (setMetaFields (rs.getD i []) mr).lookup "track_title" = some (optVal mr.track_title) ∧
      (setMetaFields (rs.getD i []) mr).lookup "artist" = some (optVal mr.artist) ∧
      (∀ j : Nat, j ≠ i →
        (rs.set i (setMetaFields (rs.getD i []) mr)).getD j [] = rs.getD j [])) ∧
    (∀ (es : List (String × Rec)) (k : String) (r : Rec),
      index.lookup (pathName mr.audio_filename) = some (.key k) → es.lookup k = some r →
      (dictEntries (update_manifest_with_metadata (.dict es) index [mr])).lookup k =
        some (setMetaFields r mr) ∧
      (dictEntries (update_manifest_with_metadata (.dict es) index [mr])).map (fun p => p.1) =
        es.map (fun p => p.1)) ∧
    (∀ (df : DFrame) (i : Nat),
      index.lookup (pathName mr.audio_filename) = some (.row i) → rect df →
      i < df.rows.length →
      update_manifest_with_metadata (.table df) index [mr] =
        .table (dfSetMeta (addMissingCols df) i mr) ∧
      (tableRowRec (dfSetMeta (addMissingCols df) i mr) i).lookup "isrc" =
        some (optVal mr.isrc) ∧
      (tableRowRec (dfSetMeta (addMissingCols df) i mr) i).lookup "track_title" =
        some (optVal mr.track_title) ∧
      (tableRowRec (dfSetMeta (addMissingCols df) i mr) i).lookup "artist" =
        some (optVal mr.artist) ∧
      (∀ j : Nat, j ≠ i →
        (dfSetMeta (addMissingCols df) i mr).rows.getD j [] =
          (addMissingCols df).rows.getD j [])) := by
  refine ⟨?_, ?_, ?_, ?_⟩
  · intro m ms1 ms2 h
    cases m with
    | table df =>
      simp only [update_manifest_with_metadata, List.foldl_append, List.foldl_cons]
      rw [applyMetaTable_miss index _ mr h]
    | list rs =>
      simp only [update_manifest_with_metadata, List.foldl_append, List.foldl_cons]
      rw [applyMetaList_miss index _ mr h]
    | dict es =>
      simp only [update_manifest_with_metadata, List.foldl_append, List.foldl_cons]
      rw [applyMetaDict_miss index _ mr h]
  · intro rs i hl hi
    have hupd : update_manifest_with_metadata (.list rs) index [mr] =
        .list (rs.set i (setMetaFields (rs.getD i []) mr)) := by
      simp only [update_manifest_with_metadata, List.foldl_cons, List.foldl_nil]
      unfold applyMetaList
      rw [hl]
    obtain ⟨m1, m2, m3⟩ := setMetaFields_lookup_meta (rs.getD i []) mr
    exact ⟨hupd, m1, m2, m3, fun j hj => getD_set_ne _ _ _ _ _ (fun e => hj e.symm)⟩
  · intro es k r hl hr
    have hupd : dictEntries (update_manifest_with_metadata (.dict es) index [mr]) =
        es.map (fun p => if p.1 == k then (p.1, setMetaFields p.2 mr) else p) := by
      simp only [update_manifest_with_metadata, List.foldl_cons, List.foldl_nil]
      unfold applyMetaDict
      rw [hl]
      rfl
    constructor
    · rw [hupd, map_replace_lookup es k (fun r => setMetaFields r mr), hr]
      rfl
    · rw [hupd, List.map_map]
      refine List.map_congr_left (fun p _ => ?_)
      by_cases hp : (p.1 == k) = true
      · simp [Function.comp, hp]
      · simp [Function.comp, hp]
  · intro df i hl hrect hi
    have hiA : i < (addMissingCols df).rows.length := by
      rw [addMissingCols_rows_length]
      exact hi
    have hupd : update_manifest_with_metadata (.table df) index [mr] =
        .table (dfSetMeta (addMissingCols df) i mr) := by
      simp only [update_manifest_with_metadata, List.foldl_cons, List.foldl_nil]
      unfold applyMetaTable
      rw [hl]
    have hrlen : ((addMissingCols df).rows.getD i []).length = (addMissingCols df).cols.length :=
      addMissingCols_rect df hrect _ (getD_mem _ _ _ hiA)
    have hrow : (dfSetMeta (addMissingCols df) i mr).rows.getD i [] =
        ((((addMissingCols df).rows.getD i []).set
            ((addMissingCols df).cols.findIdx (fun n => n == "isrc")) (optVal mr.isrc)).set
          ((addMissingCols df).cols.findIdx (fun n => n == "track_title"))
            (optVal mr.track_title)).set
          ((addMissingCols df).cols.findIdx (fun n => n == "artist")) (optVal mr.artist) := by
      rw [dfSetMeta_eq]
      exact getD_set_self _ _ _ _ hiA
    have hrr : tableRowRec (dfSetMeta (addMissingCols df) i mr) i =
        (addMissingCols df).cols.zip
          (((((addMissingCols df).rows.getD i []).set
              ((addMissingCols df).cols.findIdx (fun n => n == "isrc")) (optVal mr.isrc)).set
            ((addMissingCols df).cols.findIdx (fun n => n == "track_title"))
              (optVal mr.track_title)).set
            ((addMissingCols df).cols.findIdx (fun n => n == "artist")) (optVal mr.artist)) := by
      unfold tableRowRec
      rw [dfSetMeta_cols, hrow]
    have hm1 : "isrc" ∈ (addMissingCols df).cols :=
      (mem_addMissingCols_cols df _).mpr (Or.inr (by simp [metaCols]))
    have hm2 : "track_title" ∈ (addMissingCols df).cols :=
      (mem_addMissingCols_cols df _).mpr (Or.inr (by simp [metaCols]))
    have hm3 : "artist" ∈ (addMissingCols df).cols :=
      (mem_addMissingCols_cols df _).mpr (Or.inr (by simp [metaCols]))
    refine ⟨hupd, ?_, ?_, ?_, ?_⟩
    · rw [hrr,
        zip_lookup_set_other _ _ _ _ _ (get?_findIdx_ne _ "isrc" "artist" (by decide)),
        zip_lookup_set_other _ _ _ _ _ (get?_findIdx_ne _ "isrc" "track_title" (by decide))]
      exact zip_lookup_set_findIdx _ _ _ _ hm1 (by rw [hrlen]; exact findIdx_lt_of_mem _ _ hm1)
    · rw [hrr,
        zip_lookup_set_other _ _ _ _ _ (get?_findIdx_ne _ "track_title" "artist" (by decide))]
      exact zip_lookup_set_findIdx _ _ _ _ hm2
        (by rw [List.length_set, hrlen]; exact findIdx_lt_of_mem _ _ hm2)
    · exact hrr ▸ zip_lookup_set_findIdx _ _ _ _ hm3
        (by rw [List.length_set, List.length_set, hrlen]; exact findIdx_lt_of_mem _ _ hm3)
    · intro j hj
      rw [dfSetMeta_eq]
      exact getD_set_ne _ _ _ _ _ (fun e => hj e.symm)

/-- C7 witness: applying one metadata record to a one-row list manifest
through its index hits the single record, writes the three fields, and
removing an unmatched record from the batch changes nothing. -/
theorem claim7_witness :
    update_manifest_with_metadata (.list [[("path", Value.str "/a/t.wav")]])
        [("t.wav", .pos 0)] [⟨"x.xml", "t.wav", some "I", none, some "A"⟩] =
      .list [[("path", Value.str "/a/t.wav"), ("isrc", Value.str "I"),
              ("track_title", Value.null), ("artist", Value.str "A")]] := by
  have h := (claim7_bulk_apply [("t.wav", .pos 0)]
    ⟨"x.xml", "t.wav", some "I", none, some "A"⟩).2.1
    [[("path", Value.str "/a/t.wav")]] 0 (by decide) (by decide)
  exact h.1.trans (by rfl)

/-- The list flexible-search loop is a first-match search: it returns the
first record whose path value is a string containing the filename as a
literal substring. -/
theorem listFlexLoop_eq_find? (pk fn : String) (rs : List Rec) :
    listFlexLoop pk fn rs = rs.find? (fun r =>
      match recGet r pk (.str "") with
      | .str s => hasSubStr fn s
      | _ => false) := by
  induction rs with
  | nil => rfl
  | cons r t ih =>
    unfold listFlexLoop
    cases hv : recGet r pk (.str "") with
    | str s =>
      dsimp only
      by_cases hsub : hasSubStr fn s = true
      · rw [if_pos hsub, List.find?_cons_of_pos _ (by rw [hv]; exact hsub)]
      · rw [if_neg (by simp [hsub]), List.find?_cons_of_neg _ (by rw [hv]; simpa using hsub), ih]
    | num n =>
      dsimp only
      rw [List.find?_cons_of_neg _ (by rw [hv]; simp), ih]
    | null =>
      dsimp only
      rw [List.find?_cons_of_neg _ (by rw [hv]; simp), ih]

/-- The dict flexible-search loop is a first-match search over the
entries, the match returned as the record with its key added under
`id`. -/
theorem dictFlexLoop_eq_find? (pk fn : String) (es : List (String × Rec)) :
    dictFlexLoop pk fn es = (es.find? (fun p =>
      match recGet p.2 pk (.str "") with
      | .str s => hasSubStr fn s
      | _ => false)).map (fun p => setField p.2 "id" (.str p.1)) := by
  induction es with
  | nil => rfl
  | cons p t ih =>
    obtain ⟨k0, r⟩ := p
    unfold dictFlexLoop
    cases hv : recGet r pk (.str "") with
    | str s =>
      dsimp only
      by_cases hsub : hasSubStr fn s = true
      · rw [if_pos hsub, List.find?_cons_of_pos _ (by dsimp only; rw [hv]; exact hsub)]
        rfl
      · rw [if_neg (by simp [hsub]),
          List.find?_cons_of_neg _ (by dsimp only; rw [hv]; simpa using hsub), ih]
    | num n =>
      dsimp only
      rw [List.find?_cons_of_neg _ (by dsimp only; rw [hv]; simp), ih]
    | null =>
      dsimp only
      rw [List.find?_cons_of_neg _ (by dsimp only; rw [hv]; simp), ih]

/-- C8 (counterexample).  With the index built from the manifest itself,
resolving `track01.wav` misses the index (`track01xwav` is the only key)
and the DataFrame fallback matches, because pandas `str.contains`
interprets the filename as a regular expression — `.` matches the `x` —
even though no path contains the filename as a literal substring, where
the claim requires an absent result. -/
theorem claim8_counterexample :
    find_audio_file (.table ⟨["path"], [[.str "/a/track01xwav"]]⟩)
        (buildTableIndex ⟨["path"], [[.str "/a/track01xwav"]]⟩) "track01.wav" =
      some [("path", Value.str "/a/track01xwav")] ∧
    buildTableIndex ⟨["path"], [[.str "/a/track01xwav"]]⟩ = [("track01xwav", .row 0)] ∧
    hasSubStr "track01.wav" "/a/track01xwav" = false :=
  ⟨rfl, rfl, rfl⟩

/-- C8 (amended).  `find_audio_file` reduces its argument to a bare
filename; an exact index hit returns the record materialised from the
locator; on a miss the fallback scan returns, for a list or mapping
manifest, the first record whose path value contains the filename as a
literal substring (the mapping case adding the entry key under `id`), and
for a table manifest the first row whose path cell matches the filename
interpreted as a regular expression (pandas `str.contains` semantics, a
superset of substring containment); absent when nothing qualifies (the
`find?` returning `none`). -/
theorem claim8_resolve_amended (index : FileIndex) (fn : String) :
    (∀ (m : Manifest) (l : Loc), index.lookup (pathName fn) = some l →
      find_audio_file m index fn = materialize m l) ∧
    (∀ (rs : List Rec) (pk : String), index.lookup (pathName fn) = none →
      find_path_key_in_dict (rs.headD []) = some pk →
      find_audio_file (.list rs) index fn =
        rs.find? (fun r => match recGet r pk (.str "") with
          | .str s => hasSubStr (pathName fn) s
          | _ => false)) ∧
    (∀ (k0 : String) (r0 : Rec) (rest : List (String × Rec)) (pk : String),
      index.lookup (pathName fn) = none → find_path_key_in_dict r0 = some pk →
      find_audio_file (.dict ((k0, r0) :: rest)) index fn =
        (((k0, r0) :: rest).find? (fun p => match recGet p.2 pk (.str "") with
          | .str s => hasSubStr (pathName fn) s
          | _ => false)).map (fun p => setField p.2 "id" (.str p.1))) ∧
    (∀ (df : DFrame) (c : String), index.lookup (pathName fn) = none →
      find_path_column df = some c →
      find_audio_file (.table df) index fn =
        (df.rows.find? (fun r =>
          match r.getD (df.cols.findIdx (fun n => n == c)) Value.null with
          | .str s => regexSearchStr (pathName fn) s
          | _ => false)).map (fun r => df.cols.zip r)) := by
  refine ⟨?_, ?_, ?_, ?_⟩
  · intro m l h
    unfold find_audio_file
    dsimp only
    rw [h]
  · intro rs pk h hpk
    unfold find_audio_file
    dsimp only
    rw [h]
    dsimp only
    unfold listFlexSearch
    rw [hpk]
    exact listFlexLoop_eq_find? pk (pathName fn) rs
  · intro k0 r0 rest pk h hpk
    unfold find_audio_file
    dsimp only
    rw [h]
    dsimp only
    unfold dictFlexSearch
    dsimp only
    rw [hpk]
    exact dictFlexLoop_eq_find? pk (pathName fn) ((k0, r0) :: rest)
  · intro df c h hc
    unfold find_audio_file
    dsimp only
    rw [h]
    dsimp only
    unfold tableFlexSearch
    rw [hc]

/-- C8 witness: an empty index misses, and the list fallback returns the
first record whose path contains the filename as a substring. -/
theorem claim8_witness :
    find_audio_file (.list [[("path", Value.str "/bucket/track01.wav")]]) [] "track01.wav" =
      some [("path", Value.str "/bucket/track01.wav")] :=
  ((claim8_resolve_amended [] "track01.wav").2.1
    [[("path", Value.str "/bucket/track01.wav")]] "path" rfl rfl).trans (by rfl)

/-- C9 (confirmed).  For every manifest shape and metadata list the
updater preserves the record count; in every record every field other
than isrc, track_title and artist keeps its value (for the table shape,
relative to the original frame, under the rectangularity invariant pandas
guarantees); mapping keys are preserved; and records whose locator is hit
by no metadata record are entirely unchanged — except that a table-shaped
manifest gains the three metadata columns (filled with the no-value
marker) across all rows when they are missing, which is exactly the
`addMissingCols` frame on the right-hand sides. -/
theorem claim9_frame (index : FileIndex) (ms : List MetaRec) :
    (∀ m : Manifest,
      manifestCount (update_manifest_with_metadata m index ms) = manifestCount m) ∧
    (∀ (rs : List Rec) (i : Nat) (k : String), ¬ k ∈ metaCols →
      ((listRecs (update_manifest_with_metadata (.list rs) index ms)).getD i []).lookup k =
        ((rs.getD i []).lookup k)) ∧
    (∀ (rs : List Rec) (i : Nat),
      (∀ mr ∈ ms, index.lookup (pathName mr.audio_filename) ≠ some (.pos i)) →
      (listRecs (update_manifest_with_metadata (.list rs) index ms)).getD i [] =
        rs.getD i []) ∧
    (∀ es : List (String × Rec),
      (dictEntries (update_manifest_with_metadata (.dict es) index ms)).map (fun p => p.1) =
        es.map (fun p => p.1)) ∧
    (∀ (es : List (String × Rec)) (j : Nat) (k : String), ¬ k ∈ metaCols →
      ((dictEntries (update_manifest_with_metadata (.dict es) index ms)).getD
          j ("", [])).2.lookup k =
        ((es.getD j ("", [])).2).lookup k) ∧
    (∀ (es : List (String × Rec)) (j : Nat),
      (∀ mr ∈ ms, index.lookup (pathName mr.audio_filename) ≠
        some (.key (es.getD j ("", [])).1)) →
      (dictEntries (update_manifest_with_metadata (.dict es) index ms)).getD j ("", []) =
        es.getD j ("", [])) ∧
    (∀ df : DFrame,
      (tableDF (update_manifest_with_metadata (.table df) index ms)).cols =
        (addMissingCols df).cols) ∧
    (∀ (df : DFrame) (i : Nat) (k : String), rect df → ¬ k ∈ metaCols →
      (tableRowRec (tableDF (update_manifest_with_metadata (.table df) index ms)) i).lookup k =
        (tableRowRec df i).lookup k) ∧
    (∀ (df : DFrame) (i : Nat),
      (∀ mr ∈ ms, index.lookup (pathName mr.audio_filename) ≠ some (.row i)) →
      (tableDF (update_manifest_with_metadata (.table df) index ms)).rows.getD i [] =
        (addMissingCols df).rows.getD i []) := by
  refine ⟨?_, ?_, ?_, ?_, ?_, ?_, ?_, ?_, ?_⟩
  · intro m
    cases m with
    | table df =>
      simp only [update_manifest_with_metadata, manifestCount]
      rw [updateTable_rows_length, addMissingCols_rows_length]
    | list rs =>
      simp only [update_manifest_with_metadata, manifestCount]
      exact updateList_length index ms rs
    | dict es =>
      simp only [update_manifest_with_metadata, manifestCount]
      exact updateDict_length index ms es
  · intro rs i k hk
    simp only [update_manifest_with_metadata, listRecs]
    exact updateList_lookup_ne index ms rs i k hk
  · intro rs i h
    simp only [update_manifest_with_metadata, listRecs]
    exact updateList_untargeted index ms rs i h
  · intro es
    simp only [update_manifest_with_metadata, dictEntries]
    exact updateDict_keys index ms es
  · intro es j k hk
    simp only [update_manifest_with_metadata, dictEntries]
    exact updateDict_lookup_ne index ms es j k hk
  · intro es j h
    simp only [update_manifest_with_metadata, dictEntries]
    exact updateDict_untargeted index ms es j h
  · intro df
    simp only [update_manifest_with_metadata, tableDF]
    exact updateTable_cols_eq index ms (addMissingCols df)
  · intro df i k hrect hk
    simp only [update_manifest_with_metadata, tableDF]
    exact (updateTable_cell_ne index ms (addMissingCols df) i k hk).trans
      (addMissingCols_cell_ne df i k hrect hk)
  · intro df i h
    simp only [update_manifest_with_metadata, tableDF]
    exact updateTable_untargeted index ms (addMissingCols df) i h

/-- C9 witness: updating a one-row, one-column table through an index hit
leaves the `path` cell of the materialised row unchanged. -/
theorem claim9_witness :
    (tableRowRec (tableDF (update_manifest_with_metadata
        (.table ⟨["path"], [[Value.str "/a/t.wav"]]⟩) [("t.wav", .row 0)]
        [⟨"x.xml", "t.wav", some "I", none, none⟩])) 0).lookup "path" =
      some (Value.str "/a/t.wav") := by
  have h := (claim9_frame [("t.wav", .row 0)]
      [⟨"x.xml", "t.wav", some "I", none, none⟩]).2.2.2.2.2.2.2.1
    ⟨["path"], [[Value.str "/a/t.wav"]]⟩ 0 "path"
    (by intro r hr; rw [List.mem_singleton.mp hr]; rfl) (by decide)
  exact h.trans (by rfl)

/-- C10 (confirmed).  Loading an empty mapping-shaped manifest raises
(`next(iter({}))` inside `_build_file_index` raises `StopIteration`,
re-raised by `load_manifest`), whereas an undiscoverable path field — in a
non-empty mapping or in a list — merely degrades to an empty index. -/
theorem claim10_empty_dict_load_raises :
    load_manifest (.dict []) = .error "StopIteration" ∧
    load_manifest (.dict [("k", [("name", Value.str "x")])]) =
      .ok (.dict [("k", [("name", Value.str "x")])], []) ∧
    load_manifest (.list [[("name", Value.str "x")]]) =
      .ok (.list [[("name", Value.str "x")]], []) :=
  ⟨rfl, rfl, rfl⟩

end Catalogue
